import Mathlib

/-!
A shallow embedding of the plan-execution core of PlExA
(`src/src/executor.cpp`, `src/include/executor.h`), together with proofs
about its dispatch loop, timeline construction, adaptation store and
propagation theory.

Modelling conventions:
* times and delays are rationals (`ℚ`), as in `utils::rational`; the
  infinitesimal component of `utils::inf_rational` is never exercised by
  the properties below and is elided;
* `std::map` / `std::set` keyed by time are modelled as key-sorted
  association lists / sorted lists; `std::unordered_map` as association
  lists whose `insert` does not overwrite (as in C++);
* the external solver (SAT core, LRA theory, ov theory, listeners) is an
  oracle: a record of functions giving the values/answers the solver
  would return, so that the executor's control flow is embedded exactly
  while the collaborators stay abstract, matching their black-box role.
-/

namespace PlExA

/-- Three-valued SAT assignment, as `utils::lbool`. -/
inductive LBool
  | ltrue
  | lfalse
  | lundef
deriving DecidableEq, Repr

/-- A SAT literal (`semitone::lit`): a variable with a sign. -/
structure Lit where
  var : ℕ
  sign : Bool
deriving DecidableEq, Repr

/-- Literal negation (`operator!` on `semitone::lit`). -/
def Lit.neg (l : Lit) : Lit := ⟨l.var, !l.sign⟩

/-- The executor state machine's states (`enum executor_state`). -/
inductive ExecutorState
  | Reasoning
  | Idle
  | Adapting
  | Executing
  | Finished
  | Failed
deriving DecidableEq, Repr

/-- Association-list lookup (first entry whose key matches). -/
def alookup {α β : Type} [DecidableEq α] : List (α × β) → α → Option β
  | [], _ => none
  | (k, v) :: rest, x => if k = x then some v else alookup rest x

/-- Remove the entry with the given key (`std::unordered_map::erase`). -/
def aerase {α β : Type} [DecidableEq α] : List (α × β) → α → List (α × β)
  | [], _ => []
  | (k, v) :: rest, x => if k = x then rest else (k, v) :: aerase rest x

/-- Replace the value stored under a key (in place, keeping the order). -/
def areplace {α β : Type} [DecidableEq α] : List (α × β) → α → β → List (α × β)
  | [], _, _ => []
  | (k, v) :: rest, x, b => if k = x then (k, b) :: rest else (k, v) :: areplace rest x b

/-- `std::unordered_map::insert` of a single key/value pair: a no-op when
the key is already present, otherwise the pair is added. -/
def umapInsert (m : List (ℕ × ℚ)) (kv : ℕ × ℚ) : List (ℕ × ℚ) :=
  match alookup m kv.1 with
  | some _ => m
  | none => m ++ [kv]

/-- `executor::dont_start_yet` (src/include/executor.h:124): range-inserts
the given atom/delay map into `dont_start`; existing keys keep their
stored delay. -/
def dontStartYet (m : List (ℕ × ℚ)) (atoms : List (ℕ × ℚ)) : List (ℕ × ℚ) :=
  atoms.foldl umapInsert m

/-- `executor::dont_end_yet` (src/include/executor.h:125): same range
insertion into `dont_end`. -/
def dontEndYet (m : List (ℕ × ℚ)) (atoms : List (ℕ × ℚ)) : List (ℕ × ℚ) :=
  atoms.foldl umapInsert m

/-- Outcome of one bound re-assertion inside `executor::propagate_bounds`:
either a unit clause is recorded (`record`), nothing needs doing, or a
conflict clause is produced and propagation fails. -/
inductive PropOut
  | recorded (clause : List Lit)
  | noop
  | conflict (clause : List Lit)
deriving DecidableEq, Repr

/-- The bool-bound branch of `executor::propagate_bounds`
(src/src/executor.cpp:424-436): `var` is the literal backing the bool
item, `satVal` its current SAT value, `storedVal` the value saved in the
`bool_bounds` record, `reason` the guard literal used as reason.  The
source records `{var, !reason}` when undefined, does nothing when the
current value equals the stored one, and otherwise pushes `{var, !reason}`
as the conflict clause and fails. -/
def propagateBoundsBool (satVal storedVal : LBool) (var reason : Lit) : PropOut :=
  if satVal = .lundef then .recorded [var, reason.neg]
  else if satVal ≠ storedVal then .conflict [var, reason.neg]
  else .noop

/-- Modelled from the spec (§4.1, bool-bound re-assertion), for comparison
with `propagateBoundsBool`: "If current SAT value is undefined, record the
unit `{ℓ if v else ¬ℓ, ¬r}` ... If current SAT value equals v, nothing to
do.  If opposite, produce conflict clause `{ℓ (or ¬ℓ accordingly), ¬r}`
and fail." -/
def boolReassertSpec (satVal storedVal : LBool) (var reason : Lit) : PropOut :=
  let valLit := if storedVal = .ltrue then var else var.neg
  if satVal = .lundef then .recorded [valLit, reason.neg]
  else if satVal ≠ storedVal then .conflict [valLit, reason.neg]
  else .noop

/-- Kind of a named expression owned by an atom, mirroring the
`dynamic_cast` chain in the freeze step (`bool_item` / `arith_item` /
`enum_item`). -/
inductive VarKind
  | boolVar
  | arithVar
  | enumVar
deriving DecidableEq, Repr

/-- A named expression of an atom (`atm->get_vars()` entry). -/
structure NamedVar where
  name : String
  kind : VarKind
  expr : ℕ
deriving DecidableEq, Repr

/-- An atom as the executor sees it: an identity, its shape
(`slv.is_impulse` / `slv.is_interval`), the expression handles behind
`AT` / `START` / `END`, and its named expressions. -/
structure Atom where
  id : ℕ
  impulse : Bool
  interval : Bool
  atE : ℕ
  startE : ℕ
  endE : ℕ
  vars : List NamedVar
deriving DecidableEq, Repr

/-- The solver as a read-only oracle: the answers `ratio::solver` and its
theories currently give for each expression / atom.  (`arithValue` is
`slv.arith_value` = the LRA value, `arithUb` the second component of
`slv.arith_bounds`, `sigmaValue` the SAT value of an atom's σ literal,
`satValue` the SAT value of the literal backing a bool item, `enumValue`
the candidate set of the ov variable behind an enum item.) -/
structure Solver where
  isConstant : ℕ → Bool
  isReal : ℕ → Bool
  arithValue : ℕ → ℚ
  arithUb : ℕ → ℚ
  satValue : ℕ → LBool
  enumValue : ℕ → List ℕ
  sigmaValue : ℕ → LBool
  horizon : ℚ

/-- The pulse timeline: `s_atms`, `e_atms` (key-sorted maps from pulse to
the set of atoms starting/ending there) and `pulses` (sorted set of
pulses). -/
structure Timeline where
  sAtms : List (ℚ × List Atom)
  eAtms : List (ℚ × List Atom)
  pulses : List ℚ
deriving DecidableEq, Repr

/-- `std::unordered_set` insertion of an atom into a pulse's atom set. -/
def insertAtomSet (l : List Atom) (a : Atom) : List Atom :=
  if a ∈ l then l else l ++ [a]

/-- Insertion into a key-sorted pulse → atom-set map (`std::map`
`operator[]` followed by set insertion). -/
def mapInsertAtom : List (ℚ × List Atom) → ℚ → Atom → List (ℚ × List Atom)
  | [], t, a => [(t, [a])]
  | (k, v) :: rest, t, a =>
    if t < k then (t, [a]) :: (k, v) :: rest
    else if t = k then (k, insertAtomSet v a) :: rest
    else (k, v) :: mapInsertAtom rest t a

/-- Insertion into the sorted pulse set (`std::set<inf_rational>`). -/
def insertPulse : List ℚ → ℚ → List ℚ
  | [], t => [t]
  | p :: rest, t =>
    if t < p then t :: p :: rest
    else if t = p then p :: rest
    else p :: insertPulse rest t

/-- One iteration of the atom loop of `executor::build_timelines`
(src/src/executor.cpp:389-419): active impulses contribute their `AT`
pulse to both maps unless it lies in the past; active intervals whose
`END` is not in the past contribute `END` to `e_atms` and, when `START`
is not in the past, `START` to `s_atms`. -/
def addAtomTL (slv : Solver) (ct : ℚ) (T : Timeline) (a : Atom) : Timeline :=
  if slv.sigmaValue a.id = .ltrue then
    if a.impulse then
      let tAt := slv.arithValue a.atE
      if tAt < ct then T
      else ⟨mapInsertAtom T.sAtms tAt a, mapInsertAtom T.eAtms tAt a, insertPulse T.pulses tAt⟩
    else if a.interval then
      let tEnd := slv.arithValue a.endE
      if tEnd < ct then T
      else
        let tStart := slv.arithValue a.startE
        let T1 :=
          if ct ≤ tStart then
            ⟨mapInsertAtom T.sAtms tStart a, T.eAtms, insertPulse T.pulses tStart⟩
          else T
        ⟨T1.sAtms, mapInsertAtom T1.eAtms tEnd a, insertPulse T1.pulses tEnd⟩
    else T
  else T

/-- `executor::build_timelines` (src/src/executor.cpp:381-420): clears the
three structures and folds `addAtomTL` over the instances of the relevant
predicates (given here as the flat atom list). -/
def buildTimelines (slv : Solver) (ct : ℚ) (atoms : List Atom) : Timeline :=
  atoms.foldl (addAtomTL slv ct) ⟨[], [], []⟩

/-- Membership of a key in a pulse map. -/
def keyIn (m : List (ℚ × List Atom)) (t : ℚ) : Prop := ∃ p ∈ m, p.1 = t

/-- Membership of an atom anywhere in a pulse map. -/
def inTL (m : List (ℚ × List Atom)) (a : Atom) : Prop := ∃ p ∈ m, a ∈ p.2

/-- Membership of an atom under a given pulse in a pulse map. -/
def memAt (m : List (ℚ × List Atom)) (t : ℚ) (a : Atom) : Prop :=
  ∃ p ∈ m, p.1 = t ∧ a ∈ p.2

instance (m : List (ℚ × List Atom)) (t : ℚ) : Decidable (keyIn m t) := by
  unfold keyIn; infer_instance

instance (m : List (ℚ × List Atom)) (a : Atom) : Decidable (inTL m a) := by
  unfold inTL; infer_instance

instance (m : List (ℚ × List Atom)) (t : ℚ) (a : Atom) : Decidable (memAt m t a) := by
  unfold memAt; infer_instance

/-- A stored bound of an atom adaptation (`atom_adaptation::item_bounds`
with its three subclasses `bool_bounds` / `arith_bounds` / `var_bounds`). -/
inductive BoundRec
  | boolB (val : LBool)
  | arithB (lb ub : ℚ)
  | enumB (val : ℕ)
deriving DecidableEq, Repr

/-- `atom_adaptation`: the σ_ξ guard variable plus the map from expression
to stored bounds. -/
structure Adaptation where
  sigmaXi : ℕ
  bounds : List (ℕ × BoundRec)
deriving DecidableEq, Repr

/-- Observable events of a run: the listener notifications
(`executor_listener`), plus markers for the solver interactions that the
executor triggers (`slv.solve()`, `sat.pop()`, `slv.read(...)`). -/
inductive Event
  | starting (atms : List ℕ)
  | ending (atms : List ℕ)
  | start (atms : List ℕ)
  | endE (atms : List ℕ)
  | stateChanged (st : ExecutorState)
  | tickE (t : ℚ)
  | solveCall
  | popLevel
  | readScript
deriving DecidableEq, Repr

/-- The executor's mutable fields (`class executor`, private section of
src/include/executor.h:149-171).  `satLevels` is the depth of the SAT
core's decision stack (`root_level()` ⟺ `satLevels = 0`); `notifyCount`
and `solveCount` merely index the listener/solver oracles so that their
behaviour may vary between calls. -/
structure ExecSt where
  execState : ExecutorState
  running : Bool
  pending : Bool
  currentTime : ℚ
  unitsPerTick : ℚ
  satLevels : ℕ
  executing : List ℕ
  adaptations : List (ℕ × Adaptation)
  dontStart : List (ℕ × ℚ)
  dontEnd : List (ℕ × ℚ)
  timeline : Timeline
  notifyCount : ℕ
  solveCount : ℕ
deriving DecidableEq, Repr

/-- The environment: the solver oracle together with the behaviour of the
external collaborators during this run — the delays listeners register in
response to the n-th `starting`/`ending` notification, the results of the
LRA-theory calls, of `propagate`, `solve` and conflict backjumping, the
SAT value of ξ when a solution is found, and the timeline that
`build_timelines` produces after the n-th in-run re-solve. -/
structure Env where
  solver : Solver
  onStarting : ℕ → List ℕ → List (ℕ × ℚ)
  onEnding : ℕ → List ℕ → List (ℕ × ℚ)
  lraSetLb : Bool
  lraSet : Bool
  backjumpOk : Bool
  propagateOk : Bool
  solveOk : Bool
  xiVal : LBool
  xiValAfterDecision : LBool
  resolve : ℕ → Timeline

/-- Error conditions surfacing from the dispatcher: `execFail` is
`execution_exception`, `notImpl` the `std::runtime_error("not implemented
yet")` paths, `storeMiss` the undefined behaviours of the source
(`adaptations.at` on a missing atom, the `static_cast` of a non-arith
bound to `arith_bounds`, `*vals.begin()` on an empty candidate set). -/
inductive ErrK
  | execFail
  | notImpl
  | storeMiss
deriving DecidableEq, Repr

/-- The delayed lower bound computed when a delay `d` is absorbed
(src/src/executor.cpp:69/99): current arithmetic value of the expression
plus `units_per_tick > d ? units_per_tick : d`. -/
def delayedLb (v upt d : ℚ) : ℚ := v + (if upt > d then upt else d)

/-- The upsert of the delay-absorb step (src/src/executor.cpp:70-77): if
the expression has no stored bound yet, install `arith_bounds(lb, ub)`
with `ub` from `slv.arith_bounds`; otherwise keep the stored ub and set
the stored lb.  The source `static_cast`s an existing bound to
`arith_bounds`; a non-arith stored bound is undefined behaviour, modelled
as `none`. -/
def upsertArithLb : List (ℕ × BoundRec) → ℕ → ℚ → ℚ → Option (List (ℕ × BoundRec))
  | [], e, lb, ub => some [(e, .arithB lb ub)]
  | (k, b) :: rest, e, lb, ub =>
    if k = e then
      match b with
      | .arithB _ ub0 => some ((k, .arithB lb ub0) :: rest)
      | _ => none
    else
      (upsertArithLb rest e lb ub).map ((k, b) :: ·)

/-- The upsert of the freeze-end step (src/src/executor.cpp:181-188 and
207-214): install or overwrite `arith_bounds(val, val)`.  Again a
non-arith stored bound is undefined behaviour (`none`). -/
def upsertArithBoth : List (ℕ × BoundRec) → ℕ → ℚ → Option (List (ℕ × BoundRec))
  | [], e, val => some [(e, .arithB val val)]
  | (k, b) :: rest, e, val =>
    if k = e then
      match b with
      | .arithB _ _ => some ((k, .arithB val val) :: rest)
      | _ => none
    else
      (upsertArithBoth rest e val).map ((k, b) :: ·)

/-- `bounds.emplace(...)` of the freeze-start step: does nothing when a
bound for the expression is already stored. -/
def emplaceB (bounds : List (ℕ × BoundRec)) (e : ℕ) (b : BoundRec) : List (ℕ × BoundRec) :=
  match alookup bounds e with
  | some _ => bounds
  | none => bounds ++ [(e, b)]

/-- The atom ids of a pulse's atom set, as passed to listeners. -/
def idsOf (l : List Atom) : List ℕ := l.map (·.id)

/-- `std::unordered_set` insertion of a batch of atom ids into
`executing`. -/
def insertIds (ex : List ℕ) (ids : List ℕ) : List ℕ :=
  ids.foldl (fun ex i => if i ∈ ex then ex else ex ++ [i]) ex

/-- Erase a batch of atom ids from `executing`. -/
def removeIds (ex : List ℕ) (ids : List ℕ) : List ℕ :=
  ids.foldl (fun ex i => ex.filter (· ≠ i)) ex

/-- The delay-absorb pass over the starting atoms of the current pulse
(src/src/executor.cpp:62-91).  For each starting atom with a `dont_start`
entry: take its `AT` (impulse) or `START` expression; a constant
expression throws `execution_exception`; otherwise the delayed lower
bound is computed, upserted into the adaptation store, and (for a real
expression) imposed on the LRA theory, with a failed conflict backjump
throwing; non-real expressions are `not implemented yet`.  The entry is
then erased and the `delays` flag set. -/
def absorbStarts (env : Env) : List Atom → ExecSt → Bool → Except (ErrK × ExecSt) (ExecSt × Bool)
  | [], s, delays => .ok (s, delays)
  | a :: rest, s, delays =>
    match alookup s.dontStart a.id with
    | none => absorbStarts env rest s delays
    | some d =>
      let e := if a.impulse then a.atE else a.startE
      if env.solver.isConstant e then .error (.execFail, s)
      else
        let lb := delayedLb (env.solver.arithValue e) s.unitsPerTick d
        match alookup s.adaptations a.id with
        | none => .error (.storeMiss, s)
        | some ad =>
          match upsertArithLb ad.bounds e lb (env.solver.arithUb e) with
          | none => .error (.storeMiss, s)
          | some nb =>
            let s1 := { s with adaptations := areplace s.adaptations a.id { ad with bounds := nb } }
            if env.solver.isReal e then
              if env.lraSetLb || env.backjumpOk then
                absorbStarts env rest { s1 with dontStart := aerase s1.dontStart a.id } true
              else .error (.execFail, s1)
            else .error (.notImpl, s1)

/-- The delay-absorb pass over the ending atoms of the current pulse
(src/src/executor.cpp:92-121), identical in shape but reading `AT`
(impulse) or `END` and the `dont_end` map. -/
def absorbEnds (env : Env) : List Atom → ExecSt → Bool → Except (ErrK × ExecSt) (ExecSt × Bool)
  | [], s, delays => .ok (s, delays)
  | a :: rest, s, delays =>
    match alookup s.dontEnd a.id with
    | none => absorbEnds env rest s delays
    | some d =>
      let e := if a.impulse then a.atE else a.endE
      if env.solver.isConstant e then .error (.execFail, s)
      else
        let lb := delayedLb (env.solver.arithValue e) s.unitsPerTick d
        match alookup s.adaptations a.id with
        | none => .error (.storeMiss, s)
        | some ad =>
          match upsertArithLb ad.bounds e lb (env.solver.arithUb e) with
          | none => .error (.storeMiss, s)
          | some nb =>
            let s1 := { s with adaptations := areplace s.adaptations a.id { ad with bounds := nb } }
            if env.solver.isReal e then
              if env.lraSetLb || env.backjumpOk then
                absorbEnds env rest { s1 with dontEnd := aerase s1.dontEnd a.id } true
              else .error (.execFail, s1)
            else .error (.notImpl, s1)

/-- Freezing one named expression of a starting atom
(src/src/executor.cpp:133-165): names `at`, `duration`, `end` are
skipped; a bool expression stores its SAT value, a non-constant real
arithmetic expression stores `(val, val)` and pins the value on the LRA
theory (conflict → backjump or throw), a non-real arithmetic expression
stores nothing, an enum expression stores the single candidate of its ov
variable.  All stores use `emplace` and never overwrite. -/
def freezeVar (env : Env) (atmId : ℕ) (v : NamedVar) (s : ExecSt) : Except (ErrK × ExecSt) ExecSt :=
  if v.name = "at" ∨ v.name = "duration" ∨ v.name = "end" then .ok s
  else
    match v.kind with
    | .boolVar =>
      match alookup s.adaptations atmId with
      | none => .error (.storeMiss, s)
      | some ad =>
        let ad1 := { ad with bounds := emplaceB ad.bounds v.expr (.boolB (env.solver.satValue v.expr)) }
        .ok { s with adaptations := areplace s.adaptations atmId ad1 }
    | .arithVar =>
      if env.solver.isConstant v.expr then .ok s
      else if env.solver.isReal v.expr then
        let val := env.solver.arithValue v.expr
        match alookup s.adaptations atmId with
        | none => .error (.storeMiss, s)
        | some ad =>
          let ad1 := { ad with bounds := emplaceB ad.bounds v.expr (.arithB val val) }
          let s1 := { s with adaptations := areplace s.adaptations atmId ad1 }
          if env.lraSet || env.backjumpOk then .ok s1 else .error (.execFail, s1)
      else .ok s
    | .enumVar =>
      match env.solver.enumValue v.expr with
      | [] => .error (.storeMiss, s)
      | val :: _ =>
        match alookup s.adaptations atmId with
        | none => .error (.storeMiss, s)
        | some ad =>
          let ad1 := { ad with bounds := emplaceB ad.bounds v.expr (.enumB val) }
          .ok { s with adaptations := areplace s.adaptations atmId ad1 }

/-- Freeze all named expressions of one starting atom. -/
def freezeAtomVars (env : Env) (a : Atom) : List NamedVar → ExecSt → Except (ErrK × ExecSt) ExecSt
  | [], s => .ok s
  | v :: rest, s =>
    match freezeVar env a.id v s with
    | .error es => .error es
    | .ok s1 => freezeAtomVars env a rest s1

/-- The freeze pass over the starting atoms of the current pulse
(src/src/executor.cpp:130-167): freeze every atom's expressions, then add
the atoms to `executing`. -/
def freezeStarts (env : Env) : List Atom → ExecSt → Except (ErrK × ExecSt) ExecSt
  | [], s => .ok s
  | a :: rest, s =>
    match freezeAtomVars env a a.vars s with
    | .error es => .error es
    | .ok s1 => freezeStarts env rest s1

/-- Freezing the time point of one ending atom
(src/src/executor.cpp:174-226): an impulse freezes `AT`, an interval
freezes `END`; constants are skipped, both bounds are set to the current
value, real expressions are pinned on the LRA theory (conflict → backjump
or throw), non-real expressions are `not implemented yet`. -/
def freezeEndAtom (env : Env) (a : Atom) (s : ExecSt) : Except (ErrK × ExecSt) ExecSt :=
  if a.impulse || a.interval then
    let e := if a.impulse then a.atE else a.endE
    if env.solver.isConstant e then .ok s
    else
      let val := env.solver.arithValue e
      match alookup s.adaptations a.id with
      | none => .error (.storeMiss, s)
      | some ad =>
        match upsertArithBoth ad.bounds e val with
        | none => .error (.storeMiss, s)
        | some nb =>
          let s1 := { s with adaptations := areplace s.adaptations a.id { ad with bounds := nb } }
          if env.solver.isReal e then
            if env.lraSet || env.backjumpOk then .ok s1 else .error (.execFail, s1)
          else .error (.notImpl, s1)
  else .ok s

/-- The freeze pass over the ending atoms of the current pulse
(src/src/executor.cpp:172-229). -/
def freezeEnds (env : Env) : List Atom → ExecSt → Except (ErrK × ExecSt) ExecSt
  | [], s => .ok s
  | a :: rest, s =>
    match freezeEndAtom env a s with
    | .error es => .error es
    | .ok s1 => freezeEnds env rest s1

/-- The effects of a `slv.solve()` call made by the executor, including
the callbacks it triggers on the executor itself
(src/src/executor.cpp:308-351): `started_solving` moves any non-Reasoning
state to Adapting; on success `solution_found` reads ξ (False throws
`execution_exception`; Undefined takes the ξ decision and re-reads it,
where a still-Undefined ξ issues another `solve()` — modelled as one
recorded re-solve), rebuilds the timeline and moves to Executing/Idle; on
failure `inconsistent_problem` clears the timeline and moves to Failed.
`.error` means an exception escaped the call; the `Bool` of `.ok` is
`solve`'s return value. -/
def solveEffects (env : Env) (s : ExecSt) : Except (ExecSt × List Event) (Bool × ExecSt × List Event) :=
  let s1 := if s.execState ≠ .Reasoning then { s with execState := .Adapting } else s
  let evs1 := if s.execState ≠ .Reasoning then [Event.stateChanged .Adapting] else []
  if env.solveOk then
    match env.xiVal with
    | .lfalse => .error (s1, evs1)
    | v =>
      let s2 := if v = .lundef then { s1 with satLevels := s1.satLevels + 1 } else s1
      match (if v = .lundef then env.xiValAfterDecision else v) with
      | .lfalse => .error (s2, evs1)
      | v2 =>
        let evs2 := if v2 = .lundef then evs1 ++ [Event.solveCall] else evs1
        let s3 := { s2 with timeline := env.resolve s2.solveCount, solveCount := s2.solveCount + 1 }
        let st := if s3.running then ExecutorState.Executing else .Idle
        .ok (true, { s3 with execState := st }, evs2 ++ [Event.stateChanged st])
  else
    .ok (false, { s1 with timeline := ⟨[], [], []⟩, execState := .Failed },
      evs1 ++ [Event.stateChanged .Failed])

/-- Result of the pulse-drain loop (`manage_tick` while loop,
src/src/executor.cpp:49-236): normal completion, an escaped error, or
exhaustion of the fuel that bounds the `goto`-restart in this model. -/
inductive LoopRes
  | done (s : ExecSt) (evs : List Event)
  | err (k : ErrK) (s : ExecSt) (evs : List Event)
  | outOfFuel (s : ExecSt) (evs : List Event)
deriving DecidableEq, Repr

/-- Prepend already-emitted events to a loop result. -/
def LoopRes.withEvs (pre : List Event) : LoopRes → LoopRes
  | .done s evs => .done s (pre ++ evs)
  | .err k s evs => .err k s (pre ++ evs)
  | .outOfFuel s evs => .outOfFuel s (pre ++ evs)

/-- The pulse-drain loop of `executor::tick`
(src/src/executor.cpp:49-236).  While the minimum pulse is ≤
`current_time`: notify `starting`/`ending` (listeners answering with
`dont_start_yet`/`dont_end_yet` registrations), absorb delays; if any
delay was absorbed, propagate the SAT core and re-solve (failure of
either throws) and restart the loop (`goto manage_tick`); otherwise
freeze the starting atoms (then notify `start`), freeze the ending atoms
(then notify `end`) and erase the minimum pulse.  Each loop entry
consumes one unit of fuel. -/
def drainLoop (env : Env) : ℕ → ExecSt → LoopRes
  | fuel, s =>
    match s.timeline.pulses with
    | [] => .done s []
    | t :: restPulses =>
      if t ≤ s.currentTime then
        match fuel with
        | 0 => .outOfFuel s []
        | fuel + 1 =>
        let startingAtms := alookup s.timeline.sAtms t
        let endingAtms := alookup s.timeline.eAtms t
        let evsA :=
          match startingAtms with
          | some atms => [Event.starting (idsOf atms)]
          | none => []
        let s1 :=
          match startingAtms with
          | some atms => { s with dontStart := dontStartYet s.dontStart (env.onStarting s.notifyCount (idsOf atms)) }
          | none => s
        let evsB :=
          match endingAtms with
          | some atms => [Event.ending (idsOf atms)]
          | none => []
        let s2 :=
          match endingAtms with
          | some atms => { s1 with dontEnd := dontEndYet s1.dontEnd (env.onEnding s.notifyCount (idsOf atms)) }
          | none => s1
        let s2 := { s2 with notifyCount := s2.notifyCount + 1 }
        let evsN := evsA ++ evsB
        match absorbStarts env (startingAtms.getD []) s2 false with
        | .error (k, se) => .err k se evsN
        | .ok (s3, delays1) =>
          match absorbEnds env (endingAtms.getD []) s3 delays1 with
          | .error (k, se) => .err k se evsN
          | .ok (s4, delays) =>
            if delays then
              if !env.propagateOk then .err .execFail s4 evsN
              else
                match solveEffects env s4 with
                | .error (se, sevs) => .err .execFail se (evsN ++ [Event.solveCall] ++ sevs)
                | .ok (ret, s5, sevs) =>
                  if ret then
                    (drainLoop env fuel s5).withEvs (evsN ++ [Event.solveCall] ++ sevs)
                  else .err .execFail s5 (evsN ++ [Event.solveCall] ++ sevs)
            else
              match freezeStarts env (startingAtms.getD []) s4 with
              | .error (k, se) => .err k se evsN
              | .ok s5 =>
                let s5 :=
                  match startingAtms with
                  | some atms => { s5 with executing := insertIds s5.executing (idsOf atms) }
                  | none => s5
                let evsS :=
                  match startingAtms with
                  | some atms => [Event.start (idsOf atms)]
                  | none => []
                match freezeEnds env (endingAtms.getD []) s5 with
                | .error (k, se) => .err k se (evsN ++ evsS)
                | .ok s6 =>
                  let s6 :=
                    match endingAtms with
                    | some atms => { s6 with executing := removeIds s6.executing (idsOf atms) }
                    | none => s6
                  let evsE :=
                    match endingAtms with
                    | some atms => [Event.endE (idsOf atms)]
                    | none => []
                  let s7 := { s6 with timeline := { s6.timeline with pulses := restPulses } }
                  (drainLoop env fuel s7).withEvs (evsN ++ evsS ++ evsE)
      else .done s []

/-- Result of a `tick()` call: normal return, an escaped exception, or
fuel exhaustion of the drain loop. -/
inductive TickRes
  | ok (s : ExecSt) (evs : List Event)
  | thrown (k : ErrK) (s : ExecSt) (evs : List Event)
  | outOfFuel (s : ExecSt) (evs : List Event)
deriving DecidableEq, Repr

/-- The executor state carried by a tick result. -/
def TickRes.state : TickRes → ExecSt
  | .ok s _ => s
  | .thrown _ s _ => s
  | .outOfFuel s _ => s

/-- The events emitted by a tick result. -/
def TickRes.events : TickRes → List Event
  | .ok _ evs => evs
  | .thrown _ _ evs => evs
  | .outOfFuel _ evs => evs

/-- The events carried by a loop result. -/
def LoopRes.events : LoopRes → List Event
  | .done _ evs => evs
  | .err _ _ evs => evs
  | .outOfFuel _ evs => evs

/-- Everything of `executor::tick` after the pending-requirements block
(src/src/executor.cpp:44-252): return unless running; drain the pulses;
when the horizon has been reached and `dont_end` is empty, move to
Finished and notify; advance `current_time` by `units_per_tick` and
notify `tick`. -/
def tickAfterPending (env : Env) (fuel : ℕ) (s : ExecSt) (evs0 : List Event) : TickRes :=
  if s.running then
    match drainLoop env fuel s with
    | .outOfFuel se evs => .outOfFuel se (evs0 ++ evs)
    | .err k se evs => .thrown k se (evs0 ++ evs)
    | .done s1 evs =>
      let finished := env.solver.horizon ≤ s1.currentTime ∧ s1.dontEnd = []
      let s2 := if finished then { s1 with execState := .Finished } else s1
      let evs2 := if finished then [Event.stateChanged .Finished] else []
      let s3 := { s2 with currentTime := s2.currentTime + s2.unitsPerTick }
      .ok s3 (evs0 ++ evs ++ evs2 ++ [Event.tickE s3.currentTime])
  else .ok s evs0

/-- `executor::tick` (src/src/executor.cpp:33-252): first, a pending
adaptation request triggers `slv.solve()` (its return value is ignored;
an exception escaping the callbacks escapes `tick`, leaving the flag
set), after which the flag is cleared; then the body guarded by
`running`. -/
def tick (env : Env) (fuel : ℕ) (s : ExecSt) : TickRes :=
  if s.pending then
    match solveEffects env s with
    | .error (se, sevs) => .thrown .execFail se (Event.solveCall :: sevs)
    | .ok (_, s1, sevs) =>
      tickAfterPending env fuel { s1 with pending := false } (Event.solveCall :: sevs)
  else tickAfterPending env fuel s []

/-- `executor::adapt` (src/src/executor.cpp:254-273): pop the SAT core to
root level, read the script (`slv.read`), set `pending_requirements`.  No
`solve()` happens here. -/
def adapt (s : ExecSt) : ExecSt × List Event :=
  ({ s with satLevels := 0, pending := true },
    List.replicate s.satLevels Event.popLevel ++ [Event.readScript])

/-- Number of solver re-invocations recorded in an event list. -/
def countSolves (evs : List Event) : ℕ := evs.countP (· = Event.solveCall)

/-- Scenario S1: the single impulse atom `a` with `AT = 3`. -/
def atomA : Atom := ⟨1, true, false, 10, 11, 12, [⟨"at", .arithVar, 10⟩]⟩

/-- Scenario S1's solver: `a.AT` is a non-constant real expression valued
3; the horizon is far away. -/
def slv1 : Solver where
  isConstant := fun _ => false
  isReal := fun _ => true
  arithValue := fun e => if e = 10 then 3 else 0
  arithUb := fun _ => 1000
  satValue := fun _ => .lundef
  enumValue := fun _ => []
  sigmaValue := fun _ => .ltrue
  horizon := 100

/-- Scenario S1's environment: listeners register no delays, every solver
operation succeeds. -/
def env1 : Env where
  solver := slv1
  onStarting := fun _ _ => []
  onEnding := fun _ _ => []
  lraSetLb := true
  lraSet := true
  backjumpOk := true
  propagateOk := true
  solveOk := true
  xiVal := .ltrue
  xiValAfterDecision := .ltrue
  resolve := fun _ => ⟨[], [], []⟩

/-- Scenario S1's initial state: running, `current_time = 0`,
`units_per_tick = 1`, the timeline freshly built for `a`, and the initial
adaptation `flaw_created` installed for `a.AT`. -/
def s1 : ExecSt where
  execState := .Executing
  running := true
  pending := false
  currentTime := 0
  unitsPerTick := 1
  satLevels := 0
  executing := []
  adaptations := [(1, ⟨99, [(10, .arithB 0 1000)]⟩)]
  dontStart := []
  dontEnd := []
  timeline := buildTimelines slv1 0 [atomA]
  notifyCount := 0
  solveCount := 0

/-- S1 after one tick. -/
def c1r1 : TickRes := tick env1 9 s1

/-- S1 after two ticks. -/
def c1r2 : TickRes := tick env1 9 c1r1.state

/-- S1 after three ticks. -/
def c1r3 : TickRes := tick env1 9 c1r2.state

/-- S1 after four ticks. -/
def c1r4 : TickRes := tick env1 9 c1r3.state

/-- A paused state (after `pause_execution`): not running, state Idle, no
pending adaptation, with a non-trivial executing set and timeline. -/
def s2 : ExecSt where
  execState := .Idle
  running := false
  pending := false
  currentTime := 0
  unitsPerTick := 1
  satLevels := 0
  executing := [7]
  adaptations := [(7, ⟨40, [(30, .arithB 0 5)]⟩)]
  dontStart := []
  dontEnd := []
  timeline := ⟨[(0, [atomA])], [(0, [atomA])], [0]⟩
  notifyCount := 0
  solveCount := 0

/-- Scenario B3: the impulse atom `b` whose `AT` expression is a solver
constant. -/
def atomB : Atom := ⟨2, true, false, 20, 21, 22, []⟩

/-- Scenario B3's solver: expression 20 (`b.AT`) is constant, valued 3. -/
def slv4 : Solver where
  isConstant := fun e => e = 20
  isReal := fun _ => true
  arithValue := fun e => if e = 20 then 3 else 0
  arithUb := fun _ => 100
  satValue := fun _ => .lundef
  enumValue := fun _ => []
  sigmaValue := fun _ => .ltrue
  horizon := 100

/-- Scenario B3's environment: at the `starting` notification the
listener requests a delay of 5 on `b`. -/
def env4 : Env where
  solver := slv4
  onStarting := fun _ _ => [(2, 5)]
  onEnding := fun _ _ => []
  lraSetLb := true
  lraSet := true
  backjumpOk := true
  propagateOk := true
  solveOk := true
  xiVal := .ltrue
  xiValAfterDecision := .ltrue
  resolve := fun _ => ⟨[], [], []⟩

/-- Scenario B3's initial state: `b` is due at the current tick. -/
def s4 : ExecSt where
  execState := .Executing
  running := true
  pending := false
  currentTime := 3
  unitsPerTick := 1
  satLevels := 0
  executing := []
  adaptations := [(2, ⟨50, [(20, .arithB 0 100)]⟩)]
  dontStart := []
  dontEnd := []
  timeline := buildTimelines slv4 3 [atomB]
  notifyCount := 0
  solveCount := 0

/-- Scenario S4's solver: horizon 10. -/
def slv5 : Solver := { slv1 with horizon := 10 }

/-- Scenario S4's environment. -/
def env5 : Env := { env1 with solver := slv5 }

/-- Scenario S4's initial state: running at `current_time = 9`, no atoms
pending. -/
def s5 : ExecSt where
  execState := .Executing
  running := true
  pending := false
  currentTime := 9
  unitsPerTick := 1
  satLevels := 0
  executing := []
  adaptations := []
  dontStart := []
  dontEnd := []
  timeline := ⟨[], [], []⟩
  notifyCount := 0
  solveCount := 0

/-- S4 after one tick. -/
def c5r1 : TickRes := tick env5 9 s5

/-- S4 after two ticks. -/
def c5r2 : TickRes := tick env5 9 c5r1.state

/-- S4 after three ticks. -/
def c5r3 : TickRes := tick env5 9 c5r2.state

/-- The stubborn-listener scenario's impulse atom, due at pulse 0. -/
def atom8 : Atom := ⟨1, true, false, 10, 11, 12, []⟩

/-- The stubborn-listener scenario's solver: `AT` valued 0,
non-constant. -/
def slv8 : Solver where
  isConstant := fun _ => false
  isReal := fun _ => true
  arithValue := fun _ => 0
  arithUb := fun _ => 50
  satValue := fun _ => .lundef
  enumValue := fun _ => []
  sigmaValue := fun _ => .ltrue
  horizon := 100

/-- The timeline the stubborn-listener scenario's solver keeps
producing: the atom stays scheduled at pulse 0. -/
def tl8 : Timeline := ⟨[(0, [atom8])], [(0, [atom8])], [0]⟩

/-- The stubborn-listener environment: at every `starting` notification
the listener re-registers a delay of 1 on the atom, and every re-solve
reinstates the same timeline (the solver keeps the same solution). -/
def env8 : Env where
  solver := slv8
  onStarting := fun _ _ => [(1, 1)]
  onEnding := fun _ _ => []
  lraSetLb := true
  lraSet := true
  backjumpOk := true
  propagateOk := true
  solveOk := true
  xiVal := .ltrue
  xiValAfterDecision := .ltrue
  resolve := fun _ => tl8

/-- The stubborn-listener scenario's state family, indexed by the
notification and solve counters (which are all that change from one
restart to the next).  The stored adaptation is already at the fixed
point `arith_bounds(delayedLb 0 1 1, 50) = arith_bounds(1, 50)`. -/
def s8c (c1 c2 : ℕ) : ExecSt where
  execState := .Executing
  running := true
  pending := false
  currentTime := 0
  unitsPerTick := 1
  satLevels := 0
  executing := []
  adaptations := [(1, ⟨99, [(10, .arithB 1 50)]⟩)]
  dontStart := []
  dontEnd := []
  timeline := tl8
  notifyCount := c1
  solveCount := c2

/-- The events of one restart round of the stubborn-listener run. -/
def c8Block : List Event :=
  [.starting [1], .ending [1], .solveCall, .stateChanged .Adapting, .stateChanged .Executing]

/-- The events of `n` restart rounds of the stubborn-listener run. -/
def c8Events : ℕ → List Event
  | 0 => []
  | n + 1 => c8Block ++ c8Events n

/-- A paused state with a pending adaptation request and two decision
levels on the SAT stack. -/
def s9 : ExecSt := { s2 with pending := true, satLevels := 2 }

/-- When `build_timelines` contributes atom `a` to `s_atms` at pulse `t`:
`a` is active and is either an impulse whose `AT` is not in the past
(`t = AT`), or an interval whose `END` is not in the past and whose
`START` is not in the past (`t = START`). -/
def startsAt (slv : Solver) (ct : ℚ) (a : Atom) (t : ℚ) : Prop :=
  slv.sigmaValue a.id = .ltrue ∧
    ((a.impulse = true ∧ ¬ slv.arithValue a.atE < ct ∧ t = slv.arithValue a.atE) ∨
      (a.impulse = false ∧ a.interval = true ∧ ¬ slv.arithValue a.endE < ct ∧
        ct ≤ slv.arithValue a.startE ∧ t = slv.arithValue a.startE))

/-- When `build_timelines` contributes atom `a` to `e_atms` at pulse `t`:
`a` is active and is either an impulse whose `AT` is not in the past
(`t = AT`), or an interval whose `END` is not in the past (`t = END`). -/
def endsAt (slv : Solver) (ct : ℚ) (a : Atom) (t : ℚ) : Prop :=
  slv.sigmaValue a.id = .ltrue ∧
    ((a.impulse = true ∧ ¬ slv.arithValue a.atE < ct ∧ t = slv.arithValue a.atE) ∨
      (a.impulse = false ∧ a.interval = true ∧ ¬ slv.arithValue a.endE < ct ∧
        t = slv.arithValue a.endE))

/-! ### Theorems -/

section RatReduction

attribute [local semireducible] Rat.add

/-- C1 counterexample: in scenario S1 (impulse `a` with `AT = 3`,
`current_time = 0`, `units_per_tick = 1`), the third tick emits only
`tick(3)` — no `starting`/`start`/`ending`/`end` notification at all —
and `pulses` still holds the pulse 3 afterwards, contradicting the
claimed tick-3 dispatch and empty `pulses`: the drain loop compares the
minimum pulse against `current_time` before the end-of-tick increment, so
the pulse 3 is dispatched only by the tick that starts at time 3, the
fourth. -/
theorem c1_counterexample :
    c1r3.events = [Event.tickE 3] ∧
    Event.starting [1] ∉ c1r3.events ∧
    Event.start [1] ∉ c1r3.events ∧
    c1r3.state.timeline.pulses = [3] ∧
    ([3] : List ℚ) ≠ [] := by
  decide

/-- C1 (amended): ticks 1–3 emit no start/end notifications and
`current_time` is 3 after tick 3; the dispatch happens on tick 4, which
emits `starting({a})`, `ending({a})`, `start({a})`, `end({a})` in that
order (both `starting` and `ending` precede `start` and `end`, since the
impulse sits in both maps); `pulses` is empty after tick 4 and
`current_time` is then 4. -/
theorem c1_amended :
    c1r1.events = [Event.tickE 1] ∧
    c1r2.events = [Event.tickE 2] ∧
    c1r3.events = [Event.tickE 3] ∧
    c1r3.state.currentTime = 3 ∧
    c1r4.events =
      [Event.starting [1], Event.ending [1], Event.start [1], Event.endE [1], Event.tickE 4] ∧
    c1r4.state.currentTime = 4 ∧
    c1r4.state.timeline.pulses = [] := by
  decide

/-- C2 counterexample: in the paused state `s2` (running = false, no
pending adaptation, `current_time = 0`, `units_per_tick = 1`), `tick`
returns with the state completely unchanged — in particular
`current_time` stays 0 instead of advancing to `0 + 1` as the claim
demands: the `!running` early return precedes the `current_time +=
units_per_tick` statement. -/
theorem c2_counterexample :
    tick env1 9 s2 = .ok s2 [] ∧
    s2.currentTime = 0 ∧ s2.unitsPerTick = 1 ∧ (0 : ℚ) + 1 ≠ 0 := by
  decide

/-- C2 (amended): after `pause_execution()` and before any other mutating
call, provided no adaptation request is pending, every `tick()` returns
early and changes nothing at all: `current_time` is not advanced, no
pulse is dispatched, no listener notification fires (not even `tick`),
and the ExecutingSet is unchanged. -/
theorem c2_amended (env : Env) (fuel : ℕ) (s : ExecSt)
    (hr : s.running = false) (hp : s.pending = false) :
    tick env fuel s = .ok s [] := by
  simp [tick, tickAfterPending, hr, hp]

/-- C2 witness: the amended frame property evaluated on the concrete
paused state `s2`. -/
theorem c2_amended_witness : tick env1 9 s2 = .ok s2 [] :=
  c2_amended env1 9 s2 rfl rfl

/-- C4 counterexample: in scenario B3 (listener requests a delay on the
impulse `b` whose `AT` expression is a solver constant), the tick that
processes `b`'s pulse does raise `execution_exception`, but the
executor's state field still reads Executing — nothing in
`executor::tick` sets it to Failed on this path. -/
theorem c4_counterexample :
    tick env4 9 s4 =
      .thrown .execFail { s4 with dontStart := [(2, 5)], notifyCount := 1 }
        [Event.starting [2], Event.ending [2]] ∧
    (tick env4 9 s4).state.execState = .Executing ∧
    ExecutorState.Executing ≠ .Failed := by
  decide

/-- C4 (amended): requesting a delay on a solver-constant expression
makes the tick that processes the atom's pulse raise ExecutionFailed and
leaves the executor's stores uncorrupted (adaptations, executing set,
timeline and `current_time` exactly as before; only the listener's
delay registration is present in DontStart), but the executor's state
field is left unchanged — it does not transition to Failed. -/
theorem c4_amended :
    tick env4 9 s4 =
      .thrown .execFail { s4 with dontStart := [(2, 5)], notifyCount := 1 }
        [Event.starting [2], Event.ending [2]] ∧
    (tick env4 9 s4).state.adaptations = s4.adaptations ∧
    (tick env4 9 s4).state.executing = s4.executing ∧
    (tick env4 9 s4).state.currentTime = s4.currentTime ∧
    (tick env4 9 s4).state.timeline = s4.timeline ∧
    (tick env4 9 s4).state.execState = s4.execState := by
  decide

/-- C5 counterexample: in scenario S4 (horizon 10, `current_time = 9`,
nothing pending), the single tick emits only `tick(10)` and leaves the
state Executing, not Finished: the horizon test `horizon ≤ current_time`
runs before `current_time` is incremented, and `10 ≤ 9` fails. -/
theorem c5_counterexample :
    c5r1.events = [Event.tickE 10] ∧
    c5r1.state.execState = .Executing ∧
    ExecutorState.Executing ≠ .Finished := by
  decide

/-- C5 (amended): with horizon = 10 and `current_time = 9`, the first
tick emits only `tick(10)` and keeps the state Executing; the second tick
— which starts with `current_time = 10` — sets the state to Finished at
its end and emits `executor_state_changed(Finished)` followed by
`tick(11)`; and every subsequent tick with running = true (nothing
pending, no pulses, DontEnd empty, horizon reached) again emits
`executor_state_changed(Finished)` and `tick(time)`, not only `tick`. -/
theorem c5_amended :
    (c5r1.events = [Event.tickE 10] ∧ c5r1.state.execState = .Executing) ∧
    (c5r2.events = [Event.stateChanged .Finished, Event.tickE 11] ∧
      c5r2.state.execState = .Finished) ∧
    (∀ (env : Env) (fuel : ℕ) (s : ExecSt), s.running = true → s.pending = false →
      s.timeline.pulses = [] → s.dontEnd = [] → env.solver.horizon ≤ s.currentTime →
      tick env fuel s =
        .ok { s with execState := .Finished, currentTime := s.currentTime + s.unitsPerTick }
          [Event.stateChanged .Finished, Event.tickE (s.currentTime + s.unitsPerTick)]) := by
  refine ⟨by decide, by decide, ?_⟩
  intro env fuel s hr hp hpl hde hh
  simp [tick, tickAfterPending, drainLoop, hr, hp, hpl, hde, hh]

/-- C5 witness: the universally quantified conjunct of the amended claim
evaluated on the state after the second tick of scenario S4. -/
theorem c5_amended_witness :
    tick env5 9 c5r2.state =
      TickRes.ok
        { c5r2.state with
          execState := .Finished
          currentTime := c5r2.state.currentTime + c5r2.state.unitsPerTick }
        [Event.stateChanged .Finished,
          Event.tickE (c5r2.state.currentTime + c5r2.state.unitsPerTick)] :=
  c5_amended.2.2 env5 9 c5r2.state (by decide) (by decide) (by decide) (by decide) (by decide)

/-- C3 (code bug, evaluation at the failing input): for a stored bool
bound with value True the source branch behaves as specified (recording
`{ℓ, ¬r}` when ℓ is undefined), but for a stored value False it still
records / raises the conflict with the positive literal `{ℓ, ¬r}` —
`record({var, !reason})` and `cnfl.push_back(var)` ignore `ba->val` —
where the specified behaviour is `{¬ℓ, ¬r}`.  In the False/True case the
produced "conflict clause" even contains the currently-true literal ℓ. -/
theorem c3_code_bug_eval :
    propagateBoundsBool .lundef .ltrue ⟨5, true⟩ ⟨7, true⟩ =
      .recorded [⟨5, true⟩, ⟨7, false⟩] ∧
    boolReassertSpec .lundef .ltrue ⟨5, true⟩ ⟨7, true⟩ =
      .recorded [⟨5, true⟩, ⟨7, false⟩] ∧
    propagateBoundsBool .lundef .lfalse ⟨5, true⟩ ⟨7, true⟩ =
      .recorded [⟨5, true⟩, ⟨7, false⟩] ∧
    boolReassertSpec .lundef .lfalse ⟨5, true⟩ ⟨7, true⟩ =
      .recorded [⟨5, false⟩, ⟨7, false⟩] ∧
    propagateBoundsBool .lundef .lfalse ⟨5, true⟩ ⟨7, true⟩ ≠
      boolReassertSpec .lundef .lfalse ⟨5, true⟩ ⟨7, true⟩ ∧
    propagateBoundsBool .ltrue .lfalse ⟨5, true⟩ ⟨7, true⟩ =
      .conflict [⟨5, true⟩, ⟨7, false⟩] ∧
    boolReassertSpec .ltrue .lfalse ⟨5, true⟩ ⟨7, true⟩ =
      .conflict [⟨5, false⟩, ⟨7, false⟩] := by
  decide

/-- Helper: whatever `tickAfterPending` does, the first event it was
already handed stays the first event of its output. -/
theorem tickAfterPending_events_head (env : Env) (fuel : ℕ) (s : ExecSt)
    (e : Event) (evs0 : List Event) :
    (tickAfterPending env fuel s (e :: evs0)).events.head? = some e := by
  unfold tickAfterPending
  by_cases hr : s.running
  · simp only [hr, if_true]
    cases h : drainLoop env fuel s with
    | done s1 evs => rfl
    | err k s1 evs => rfl
    | outOfFuel s1 evs => rfl
  · simp [hr, TickRes.events]

/-- C9: `adapt` pops the SAT core to root level (retracting the ξ
decision and with it all executor-imposed adaptations) before the script
is read (the pops precede the read in its trace), it performs no
`solve()` and only sets the pending flag; the deferred `solve()` then
runs first thing in the next `tick`, before the `running` check, so its
trace starts with the solve even when the executor is paused. -/
theorem c9_adapt_defers_solve (env : Env) (fuel : ℕ) (s : ExecSt) :
    (adapt s).1.satLevels = 0 ∧
    (adapt s).1.pending = true ∧
    (adapt s).2 = List.replicate s.satLevels Event.popLevel ++ [Event.readScript] ∧
    Event.solveCall ∉ (adapt s).2 ∧
    (s.pending = true → (tick env fuel s).events.head? = some Event.solveCall) := by
  refine ⟨rfl, rfl, rfl, ?_, ?_⟩
  · simp [adapt, List.mem_replicate]
  · intro hp
    unfold tick
    simp only [hp, if_true]
    rcases h : solveEffects env s with ⟨se, sevs⟩ | ⟨ret, s1, sevs⟩
    · rfl
    · exact tickAfterPending_events_head env fuel { s1 with pending := false }
        Event.solveCall sevs

/-- C9 witness: the deferred-solve behaviour on the concrete paused state
`s9` (pending adaptation, two SAT decision levels, running = false). -/
theorem c9_adapt_defers_solve_witness :
    (adapt s9).1.satLevels = 0 ∧
    (adapt s9).2 = List.replicate s9.satLevels Event.popLevel ++ [Event.readScript] ∧
    (tick env1 3 s9).events.head? = some Event.solveCall :=
  ⟨(c9_adapt_defers_solve env1 3 s9).1, (c9_adapt_defers_solve env1 3 s9).2.2.1,
    (c9_adapt_defers_solve env1 3 s9).2.2.2.2 rfl⟩

/-- Helper: looking a key up in the concatenation of two association
lists first tries the left list. -/
theorem alookup_append {α β : Type} [DecidableEq α] (m l : List (α × β)) (k : α) :
    alookup (m ++ l) k =
      match alookup m k with
      | some v => some v
      | none => alookup l k := by
  induction m with
  | nil => simp [alookup]
  | cons kv rest ih =>
    by_cases h : kv.1 = k <;> simp [alookup, h, ih]

/-- Helper: `umapInsert` keeps every key that was already present,
with its stored value. -/
theorem alookup_umapInsert_of_isSome (m : List (ℕ × ℚ)) (kv : ℕ × ℚ) (k : ℕ)
    (h : (alookup m k).isSome = true) :
    alookup (umapInsert m kv) k = alookup m k := by
  unfold umapInsert
  rcases h' : alookup m kv.1 with _ | v
  · rw [alookup_append]
    rcases h'' : alookup m k with _ | w
    · rw [h''] at h; simp at h
    · rfl
  · rfl

/-- Helper: after `umapInsert m kv` the key `kv.1` is present. -/
theorem umapInsert_self_isSome (m : List (ℕ × ℚ)) (kv : ℕ × ℚ) :
    (alookup (umapInsert m kv) kv.1).isSome = true := by
  unfold umapInsert
  rcases h : alookup m kv.1 with _ | v
  · rw [alookup_append, h]
    simp [alookup]
  · simp [h]

/-- Helper: a key present before a range insertion is present (with the
same value) afterwards. -/
theorem alookup_dontStartYet_of_isSome (l : List (ℕ × ℚ)) (m : List (ℕ × ℚ)) (k : ℕ)
    (h : (alookup m k).isSome = true) :
    alookup (dontStartYet m l) k = alookup m k := by
  induction l generalizing m with
  | nil => rfl
  | cons kv rest ih =>
    show alookup (dontStartYet (umapInsert m kv) rest) k = alookup m k
    rw [ih (umapInsert m kv) (by rw [alookup_umapInsert_of_isSome m kv k h]; exact h),
      alookup_umapInsert_of_isSome m kv k h]

/-- Helper: inserting a key that is already present changes nothing. -/
theorem umapInsert_of_isSome (m : List (ℕ × ℚ)) (kv : ℕ × ℚ)
    (h : (alookup m kv.1).isSome = true) : umapInsert m kv = m := by
  unfold umapInsert
  rcases h' : alookup m kv.1 with _ | v
  · rw [h'] at h; simp at h
  · rfl

/-- C10: `dont_start_yet`/`dont_end_yet` use `unordered_map::insert`,
which never overwrites: (i)/(ii) a further registration for an atom that
already has a stored delay leaves the whole map unchanged, whatever the
new delay; (iii) hence registering the same batch twice equals
registering it once; (iv) and before the entry is absorbed the delay in
effect is the first one registered. -/
theorem c10_dont_start_yet_first_wins :
    (∀ (m : List (ℕ × ℚ)) (a : ℕ) (d' : ℚ), (alookup m a).isSome = true →
      dontStartYet m [(a, d')] = m) ∧
    (∀ (m : List (ℕ × ℚ)) (a : ℕ) (d' : ℚ), (alookup m a).isSome = true →
      dontEndYet m [(a, d')] = m) ∧
    (∀ (m l : List (ℕ × ℚ)), dontStartYet (dontStartYet m l) l = dontStartYet m l) ∧
    (∀ (m : List (ℕ × ℚ)) (a : ℕ) (d d' : ℚ), alookup m a = none →
      alookup (dontStartYet (dontStartYet m [(a, d)]) [(a, d')]) a = some d) := by
  have single : ∀ (m : List (ℕ × ℚ)) (a : ℕ) (d' : ℚ), (alookup m a).isSome = true →
      dontStartYet m [(a, d')] = m := by
    intro m a d' h
    show umapInsert m (a, d') = m
    exact umapInsert_of_isSome m (a, d') h
  have idem : ∀ (l m : List (ℕ × ℚ)), dontStartYet (dontStartYet m l) l = dontStartYet m l := by
    intro l
    induction l with
    | nil => intro m; rfl
    | cons kv rest ih =>
      intro m
      show dontStartYet (umapInsert (dontStartYet (umapInsert m kv) rest) kv) rest =
        dontStartYet (umapInsert m kv) rest
      rw [umapInsert_of_isSome _ kv (by
        rw [alookup_dontStartYet_of_isSome rest (umapInsert m kv) kv.1
          (umapInsert_self_isSome m kv)]
        exact umapInsert_self_isSome m kv)]
      exact ih (umapInsert m kv)
  refine ⟨single, single, fun m l => idem l m, ?_⟩
  intro m a d d' h
  have h1 : alookup (dontStartYet m [(a, d)]) a = some d := by
    show alookup (umapInsert m (a, d)) a = some d
    unfold umapInsert
    rw [h, alookup_append, h]
    simp [alookup]
  rw [single (dontStartYet m [(a, d)]) a d' (by rw [h1]; rfl), h1]

/-- C10 witness: the first registered delay survives a second
registration with a different delay. -/
theorem c10_dont_start_yet_first_wins_witness :
    dontStartYet [(3, (2 : ℚ))] [(3, 9)] = [(3, (2 : ℚ))] ∧
    alookup (dontStartYet (dontStartYet [] [(3, (2 : ℚ))]) [(3, 9)]) 3 = some 2 :=
  ⟨c10_dont_start_yet_first_wins.1 [(3, 2)] 3 9 rfl,
    c10_dont_start_yet_first_wins.2.2.2 [] 3 2 9 rfl⟩

/-- C6: when a pending delay `d` is absorbed, (i) the new lower bound is
the expression's current arithmetic value plus `max(units_per_tick, d)`;
(ii) if no bound is stored yet for the expression, `ArithBound(lb', ub)`
is installed with the solver's current upper bound; (iii) if an arith
bound is already stored, its ub is kept and its lb is set to the new
value, all other entries untouched; (iv) the delay-absorb step of `tick`
(`absorbStarts`) performs exactly this update on the adaptation store and
erases the absorbed entry. -/
theorem c6_delay_lower_bound :
    (∀ v upt d : ℚ, delayedLb v upt d = v + max upt d) ∧
    (∀ (bounds : List (ℕ × BoundRec)) (e : ℕ) (lb ub : ℚ), alookup bounds e = none →
      upsertArithLb bounds e lb ub = some (bounds ++ [(e, .arithB lb ub)])) ∧
    (∀ (bounds : List (ℕ × BoundRec)) (e : ℕ) (lb ub lb0 ub0 : ℚ),
      alookup bounds e = some (.arithB lb0 ub0) →
      ∃ r, upsertArithLb bounds e lb ub = some r ∧
        alookup r e = some (.arithB lb ub0) ∧
        ∀ e', e' ≠ e → alookup r e' = alookup bounds e') ∧
    (∀ (env : Env) (s : ExecSt) (a : Atom) (d : ℚ) (ad : Adaptation)
        (nb : List (ℕ × BoundRec)),
      alookup s.dontStart a.id = some d →
      env.solver.isConstant (if a.impulse then a.atE else a.startE) = false →
      alookup s.adaptations a.id = some ad →
      upsertArithLb ad.bounds (if a.impulse then a.atE else a.startE)
        (delayedLb (env.solver.arithValue (if a.impulse then a.atE else a.startE))
          s.unitsPerTick d)
        (env.solver.arithUb (if a.impulse then a.atE else a.startE)) = some nb →
      env.solver.isReal (if a.impulse then a.atE else a.startE) = true →
      env.lraSetLb = true →
      absorbStarts env [a] s false =
        .ok ({ s with
               adaptations := areplace s.adaptations a.id { ad with bounds := nb }
               dontStart := aerase s.dontStart a.id }, true)) := by
  refine ⟨?_, ?_, ?_, ?_⟩
  · intro v upt d
    unfold delayedLb
    rcases le_or_lt upt d with h | h
    · rw [if_neg (not_lt.mpr h), max_eq_right h]
    · rw [if_pos h, max_eq_left h.le]
  · intro bounds e lb ub h
    induction bounds with
    | nil => rfl
    | cons kv rest ih =>
      obtain ⟨k, b⟩ := kv
      unfold alookup at h
      unfold upsertArithLb
      by_cases hk : k = e
      · rw [if_pos hk] at h; exact absurd h (by simp)
      · rw [if_neg hk] at h
        rw [if_neg hk, ih h]
        rfl
  · intro bounds e lb ub lb0 ub0 h
    induction bounds with
    | nil => exact absurd h (by simp [alookup])
    | cons kv rest ih =>
      obtain ⟨k, b⟩ := kv
      unfold alookup at h
      by_cases hk : k = e
      · rw [if_pos hk] at h
        injection h with hb
        subst hb; subst hk
        refine ⟨(k, .arithB lb ub0) :: rest, ?_, ?_, ?_⟩
        · unfold upsertArithLb; rw [if_pos rfl]
        · unfold alookup; rw [if_pos rfl]
        · intro e' he'
          unfold alookup
          rw [if_neg (fun hke' => he' hke'.symm), if_neg (fun hke' => he' hke'.symm)]
      · rw [if_neg hk] at h
        obtain ⟨r, hr, hre, hrne⟩ := ih h
        refine ⟨(k, b) :: r, ?_, ?_, ?_⟩
        · unfold upsertArithLb; rw [if_neg hk, hr]; rfl
        · unfold alookup; rw [if_neg hk]; exact hre
        · intro e' he'
          unfold alookup
          by_cases hke' : k = e'
          · rw [if_pos hke', if_pos hke']
          · rw [if_neg hke', if_neg hke']
            exact hrne e' he'
  · intro env s a d ad nb h1 h2 h3 h4 h5 h6
    simp only [absorbStarts, h1, h2, h3, h4, h5, h6, Bool.false_eq_true, if_false,
      Bool.true_or, if_true]

/-- C6 witness: installing a fresh bound on an empty bounds map. -/
theorem c6_delay_lower_bound_witness :
    upsertArithLb [] 10 1 50 = some [(10, .arithB 1 50)] :=
  c6_delay_lower_bound.2.1 [] 10 1 50 rfl

/-- Helper: nothing is a key of the empty pulse map. -/
theorem keyIn_nil (t : ℚ) : ¬ keyIn [] t := by
  rintro ⟨p, hp, _⟩
  exact absurd hp (List.not_mem_nil p)

/-- Helper: key membership in a non-empty pulse map, entry by entry. -/
theorem keyIn_cons (k : ℚ) (v : List Atom) (m : List (ℚ × List Atom)) (t : ℚ) :
    keyIn ((k, v) :: m) t ↔ k = t ∨ keyIn m t := by
  constructor
  · rintro ⟨p, hp, hpt⟩
    rcases List.mem_cons.mp hp with rfl | hp
    · exact .inl hpt
    · exact .inr ⟨p, hp, hpt⟩
  · rintro (rfl | ⟨p, hp, hpt⟩)
    · exact ⟨(k, v), List.mem_cons_self _ _, rfl⟩
    · exact ⟨p, List.mem_cons_of_mem _ hp, hpt⟩

/-- Helper: no atom sits in the empty pulse map. -/
theorem memAt_nil (t : ℚ) (b : Atom) : ¬ memAt [] t b := by
  rintro ⟨p, hp, _⟩
  exact absurd hp (List.not_mem_nil p)

/-- Helper: atom-under-key membership in a non-empty pulse map. -/
theorem memAt_cons (k : ℚ) (v : List Atom) (m : List (ℚ × List Atom)) (t : ℚ) (b : Atom) :
    memAt ((k, v) :: m) t b ↔ (k = t ∧ b ∈ v) ∨ memAt m t b := by
  constructor
  · rintro ⟨p, hp, hpt, hpb⟩
    rcases List.mem_cons.mp hp with rfl | hp
    · exact .inl ⟨hpt, hpb⟩
    · exact .inr ⟨p, hp, hpt, hpb⟩
  · rintro (⟨rfl, hb⟩ | ⟨p, hp, hpt, hpb⟩)
    · exact ⟨(k, v), List.mem_cons_self _ _, rfl, hb⟩
    · exact ⟨p, List.mem_cons_of_mem _ hp, hpt, hpb⟩

/-- Helper: membership after a sorted-set pulse insertion. -/
theorem mem_insertPulse (l : List ℚ) (t t' : ℚ) :
    t' ∈ insertPulse l t ↔ t' = t ∨ t' ∈ l := by
  induction l with
  | nil => simp [insertPulse]
  | cons p rest ih =>
    unfold insertPulse
    by_cases h1 : t < p
    · simp [h1]
    · by_cases h2 : t = p
      · subst h2
        rw [if_neg h1, if_pos rfl]
        constructor
        · exact .inr
        · rintro (rfl | h)
          · exact List.mem_cons_self _ _
          · exact h
      · rw [if_neg h1, if_neg h2, List.mem_cons, List.mem_cons, ih]
        tauto

/-- Helper: sorted-set pulse insertion preserves sortedness. -/
theorem sorted_insertPulse (l : List ℚ) (t : ℚ) (h : l.Sorted (· < ·)) :
    (insertPulse l t).Sorted (· < ·) := by
  induction l with
  | nil => simp [insertPulse]
  | cons p rest ih =>
    rw [List.sorted_cons] at h
    obtain ⟨hp, hrest⟩ := h
    unfold insertPulse
    by_cases h1 : t < p
    · rw [if_pos h1, List.sorted_cons]
      refine ⟨?_, List.sorted_cons.mpr ⟨hp, hrest⟩⟩
      intro b hb
      rcases List.mem_cons.mp hb with rfl | hb
      · exact h1
      · exact h1.trans (hp b hb)
    · by_cases h2 : t = p
      · rw [if_neg h1, if_pos h2]
        exact List.sorted_cons.mpr ⟨hp, hrest⟩
      · rw [if_neg h1, if_neg h2, List.sorted_cons]
        refine ⟨?_, ih hrest⟩
        intro b hb
        rcases (mem_insertPulse rest t b).mp hb with rfl | hb
        · exact lt_of_le_of_ne (not_lt.mp h1) (Ne.symm h2)
        · exact hp b hb

/-- Helper: membership in an atom set after an insertion. -/
theorem mem_insertAtomSet (l : List Atom) (a b : Atom) :
    b ∈ insertAtomSet l a ↔ b = a ∨ b ∈ l := by
  unfold insertAtomSet
  by_cases h : a ∈ l
  · simp only [h, if_true]
    constructor
    · exact .inr
    · rintro (rfl | hb)
      · exact h
      · exact hb
  · simp [h, List.mem_append, or_comm]

/-- Helper: key membership after a pulse-map insertion. -/
theorem keyIn_mapInsertAtom (m : List (ℚ × List Atom)) (t : ℚ) (a : Atom) (t' : ℚ) :
    keyIn (mapInsertAtom m t a) t' ↔ t' = t ∨ keyIn m t' := by
  induction m with
  | nil =>
    unfold mapInsertAtom
    rw [keyIn_cons]
    simp [keyIn_nil, eq_comm]
  | cons kv rest ih =>
    obtain ⟨k, v⟩ := kv
    unfold mapInsertAtom
    by_cases h1 : t < k
    · rw [if_pos h1, keyIn_cons, keyIn_cons]
      constructor
      · rintro (h | h)
        · exact .inl h.symm
        · exact .inr h
      · rintro (h | h)
        · exact .inl h.symm
        · exact .inr h
    · by_cases h2 : t = k
      · rw [if_neg h1, if_pos h2, keyIn_cons, keyIn_cons, h2]
        constructor
        · rintro (h | h)
          · exact .inl h.symm
          · exact .inr (.inr h)
        · rintro (h | h)
          · exact .inl h.symm
          · exact h
      · rw [if_neg h1, if_neg h2, keyIn_cons, keyIn_cons, ih]
        tauto

/-- Helper: atom-under-key membership after a pulse-map insertion. -/
theorem memAt_mapInsertAtom (m : List (ℚ × List Atom)) (t : ℚ) (a : Atom)
    (t' : ℚ) (b : Atom) :
    memAt (mapInsertAtom m t a) t' b ↔ (t' = t ∧ b = a) ∨ memAt m t' b := by
  induction m with
  | nil =>
    unfold mapInsertAtom
    rw [memAt_cons]
    simp [memAt_nil, eq_comm, List.mem_singleton]
  | cons kv rest ih =>
    obtain ⟨k, v⟩ := kv
    unfold mapInsertAtom
    by_cases h1 : t < k
    · rw [if_pos h1, memAt_cons, memAt_cons, List.mem_singleton]
      constructor
      · rintro (⟨h, hb⟩ | h)
        · exact .inl ⟨h.symm, hb⟩
        · exact .inr h
      · rintro (⟨h, hb⟩ | h)
        · exact .inl ⟨h.symm, hb⟩
        · exact .inr h
    · by_cases h2 : t = k
      · subst h2
        rw [if_neg h1, if_pos rfl, memAt_cons, memAt_cons]
        constructor
        · rintro (⟨h, hb⟩ | h)
          · rcases (mem_insertAtomSet v a b).mp hb with rfl | hbv
            · exact .inl ⟨h.symm, rfl⟩
            · exact .inr (.inl ⟨h, hbv⟩)
          · exact .inr (.inr h)
        · rintro (⟨h, rfl⟩ | ⟨h, hb⟩ | h)
          · exact .inl ⟨h.symm, (mem_insertAtomSet v b b).mpr (.inl rfl)⟩
          · exact .inl ⟨h, (mem_insertAtomSet v a b).mpr (.inr hb)⟩
          · exact .inr h
      · rw [if_neg h1, if_neg h2, memAt_cons, memAt_cons, ih]
        tauto

/-- Helper: the start-map contribution of one `build_timelines`
iteration. -/
theorem addAtomTL_sAtms_memAt (slv : Solver) (ct : ℚ) (T : Timeline) (a : Atom)
    (t : ℚ) (b : Atom) :
    memAt (addAtomTL slv ct T a).sAtms t b ↔
      (startsAt slv ct a t ∧ b = a) ∨ memAt T.sAtms t b := by
  unfold addAtomTL startsAt
  by_cases hσ : slv.sigmaValue a.id = .ltrue
  · by_cases himp : a.impulse = true
    · by_cases hat : slv.arithValue a.atE < ct
      · simp [hσ, himp, hat]
      · simp [hσ, himp, hat, memAt_mapInsertAtom]
    · by_cases hint : a.interval = true
      · by_cases hend : slv.arithValue a.endE < ct
        · simp [hσ, himp, hint, hend]
        · by_cases hst : ct ≤ slv.arithValue a.startE
          · simp [hσ, himp, hint, hend, hst, memAt_mapInsertAtom]
          · simp [hσ, himp, hint, hend, hst]
      · simp [hσ, himp, hint]
  · simp [hσ]

/-- Helper: the end-map contribution of one `build_timelines`
iteration. -/
theorem addAtomTL_eAtms_memAt (slv : Solver) (ct : ℚ) (T : Timeline) (a : Atom)
    (t : ℚ) (b : Atom) :
    memAt (addAtomTL slv ct T a).eAtms t b ↔
      (endsAt slv ct a t ∧ b = a) ∨ memAt T.eAtms t b := by
  unfold addAtomTL endsAt
  by_cases hσ : slv.sigmaValue a.id = .ltrue
  · by_cases himp : a.impulse = true
    · by_cases hat : slv.arithValue a.atE < ct
      · simp [hσ, himp, hat]
      · simp [hσ, himp, hat, memAt_mapInsertAtom]
    · by_cases hint : a.interval = true
      · by_cases hend : slv.arithValue a.endE < ct
        · simp [hσ, himp, hint, hend]
        · by_cases hst : ct ≤ slv.arithValue a.startE
          · simp [hσ, himp, hint, hend, hst, memAt_mapInsertAtom]
          · simp [hσ, himp, hint, hend, hst, memAt_mapInsertAtom]
      · simp [hσ, himp, hint]
  · simp [hσ]

/-- Helper: the start-map keys contributed by one `build_timelines`
iteration. -/
theorem addAtomTL_sAtms_keyIn (slv : Solver) (ct : ℚ) (T : Timeline) (a : Atom)
    (t : ℚ) :
    keyIn (addAtomTL slv ct T a).sAtms t ↔ startsAt slv ct a t ∨ keyIn T.sAtms t := by
  unfold addAtomTL startsAt
  by_cases hσ : slv.sigmaValue a.id = .ltrue
  · by_cases himp : a.impulse = true
    · by_cases hat : slv.arithValue a.atE < ct
      · simp [hσ, himp, hat]
      · simp [hσ, himp, hat, keyIn_mapInsertAtom]
    · by_cases hint : a.interval = true
      · by_cases hend : slv.arithValue a.endE < ct
        · simp [hσ, himp, hint, hend]
        · by_cases hst : ct ≤ slv.arithValue a.startE
          · simp [hσ, himp, hint, hend, hst, keyIn_mapInsertAtom]
          · simp [hσ, himp, hint, hend, hst]
      · simp [hσ, himp, hint]
  · simp [hσ]

/-- Helper: the end-map keys contributed by one `build_timelines`
iteration. -/
theorem addAtomTL_eAtms_keyIn (slv : Solver) (ct : ℚ) (T : Timeline) (a : Atom)
    (t : ℚ) :
    keyIn (addAtomTL slv ct T a).eAtms t ↔ endsAt slv ct a t ∨ keyIn T.eAtms t := by
  unfold addAtomTL endsAt
  by_cases hσ : slv.sigmaValue a.id = .ltrue
  · by_cases himp : a.impulse = true
    · by_cases hat : slv.arithValue a.atE < ct
      · simp [hσ, himp, hat]
      · simp [hσ, himp, hat, keyIn_mapInsertAtom]
    · by_cases hint : a.interval = true
      · by_cases hend : slv.arithValue a.endE < ct
        · simp [hσ, himp, hint, hend]
        · by_cases hst : ct ≤ slv.arithValue a.startE
          · simp [hσ, himp, hint, hend, hst, keyIn_mapInsertAtom]
          · simp [hσ, himp, hint, hend, hst, keyIn_mapInsertAtom]
      · simp [hσ, himp, hint]
  · simp [hσ]

/-- Helper: the pulses contributed by one `build_timelines` iteration. -/
theorem addAtomTL_pulses_mem (slv : Solver) (ct : ℚ) (T : Timeline) (a : Atom)
    (t : ℚ) :
    t ∈ (addAtomTL slv ct T a).pulses ↔
      (startsAt slv ct a t ∨ endsAt slv ct a t) ∨ t ∈ T.pulses := by
  unfold addAtomTL startsAt endsAt
  by_cases hσ : slv.sigmaValue a.id = .ltrue
  · by_cases himp : a.impulse = true
    · by_cases hat : slv.arithValue a.atE < ct
      · simp [hσ, himp, hat]
      · simp [hσ, himp, hat, mem_insertPulse]
    · by_cases hint : a.interval = true
      · by_cases hend : slv.arithValue a.endE < ct
        · simp [hσ, himp, hint, hend]
        · by_cases hst : ct ≤ slv.arithValue a.startE
          · simp [hσ, himp, hint, hend, hst, mem_insertPulse]
            tauto
          · simp [hσ, himp, hint, hend, hst, mem_insertPulse]
      · simp [hσ, himp, hint]
  · simp [hσ]

/-- Helper: one `build_timelines` iteration keeps the pulse set sorted. -/
theorem addAtomTL_pulses_sorted (slv : Solver) (ct : ℚ) (T : Timeline) (a : Atom)
    (h : T.pulses.Sorted (· < ·)) :
    (addAtomTL slv ct T a).pulses.Sorted (· < ·) := by
  unfold addAtomTL
  by_cases hσ : slv.sigmaValue a.id = .ltrue
  · by_cases himp : a.impulse = true
    · by_cases hat : slv.arithValue a.atE < ct
      · simp only [hσ, himp, hat, if_true, if_pos, if_false]
        simpa [hat] using h
      · simp only [hσ, himp, if_true]
        rw [if_neg hat]
        exact sorted_insertPulse _ _ h
    · by_cases hint : a.interval = true
      · by_cases hend : slv.arithValue a.endE < ct
        · simpa [hσ, himp, hint, hend] using h
        · by_cases hst : ct ≤ slv.arithValue a.startE
          · simp only [hσ, himp, hint, if_true, Bool.false_eq_true, if_false]
            rw [if_neg hend, if_pos hst]
            exact sorted_insertPulse _ _ (sorted_insertPulse _ _ h)
          · simp only [hσ, himp, hint, if_true, Bool.false_eq_true, if_false]
            rw [if_neg hend, if_neg hst]
            exact sorted_insertPulse _ _ h
      · simpa [hσ, himp, hint] using h
  · simpa [hσ] using h

/-- Helper: membership in the start map built by the whole atom fold. -/
theorem buildGo_sAtms_memAt (slv : Solver) (ct : ℚ) :
    ∀ (atoms : List Atom) (T : Timeline) (t : ℚ) (b : Atom),
    memAt ((atoms.foldl (addAtomTL slv ct) T).sAtms) t b ↔
      (b ∈ atoms ∧ startsAt slv ct b t) ∨ memAt T.sAtms t b := by
  intro atoms
  induction atoms with
  | nil => simp
  | cons a rest ih =>
    intro T t b
    rw [List.foldl_cons, ih, addAtomTL_sAtms_memAt]
    constructor
    · rintro (⟨hb, hs⟩ | ⟨hs, rfl⟩ | hm)
      · exact .inl ⟨List.mem_cons_of_mem _ hb, hs⟩
      · exact .inl ⟨List.mem_cons_self _ _, hs⟩
      · exact .inr hm
    · rintro (⟨hb, hs⟩ | hm)
      · rcases List.mem_cons.mp hb with rfl | hb
        · exact .inr (.inl ⟨hs, rfl⟩)
        · exact .inl ⟨hb, hs⟩
      · exact .inr (.inr hm)

/-- Helper: membership in the end map built by the whole atom fold. -/
theorem buildGo_eAtms_memAt (slv : Solver) (ct : ℚ) :
    ∀ (atoms : List Atom) (T : Timeline) (t : ℚ) (b : Atom),
    memAt ((atoms.foldl (addAtomTL slv ct) T).eAtms) t b ↔
      (b ∈ atoms ∧ endsAt slv ct b t) ∨ memAt T.eAtms t b := by
  intro atoms
  induction atoms with
  | nil => simp
  | cons a rest ih =>
    intro T t b
    rw [List.foldl_cons, ih, addAtomTL_eAtms_memAt]
    constructor
    · rintro (⟨hb, hs⟩ | ⟨hs, rfl⟩ | hm)
      · exact .inl ⟨List.mem_cons_of_mem _ hb, hs⟩
      · exact .inl ⟨List.mem_cons_self _ _, hs⟩
      · exact .inr hm
    · rintro (⟨hb, hs⟩ | hm)
      · rcases List.mem_cons.mp hb with rfl | hb
        · exact .inr (.inl ⟨hs, rfl⟩)
        · exact .inl ⟨hb, hs⟩
      · exact .inr (.inr hm)

/-- Helper: keys of the start map built by the whole atom fold. -/
theorem buildGo_sAtms_keyIn (slv : Solver) (ct : ℚ) :
    ∀ (atoms : List Atom) (T : Timeline) (t : ℚ),
    keyIn ((atoms.foldl (addAtomTL slv ct) T).sAtms) t ↔
      (∃ a ∈ atoms, startsAt slv ct a t) ∨ keyIn T.sAtms t := by
  intro atoms
  induction atoms with
  | nil => simp
  | cons a rest ih =>
    intro T t
    rw [List.foldl_cons, ih, addAtomTL_sAtms_keyIn]
    constructor
    · rintro (⟨c, hc, hs⟩ | hs | hk)
      · exact .inl ⟨c, List.mem_cons_of_mem _ hc, hs⟩
      · exact .inl ⟨a, List.mem_cons_self _ _, hs⟩
      · exact .inr hk
    · rintro (⟨c, hc, hs⟩ | hk)
      · rcases List.mem_cons.mp hc with rfl | hc
        · exact .inr (.inl hs)
        · exact .inl ⟨c, hc, hs⟩
      · exact .inr (.inr hk)

/-- Helper: keys of the end map built by the whole atom fold. -/
theorem buildGo_eAtms_keyIn (slv : Solver) (ct : ℚ) :
    ∀ (atoms : List Atom) (T : Timeline) (t : ℚ),
    keyIn ((atoms.foldl (addAtomTL slv ct) T).eAtms) t ↔
      (∃ a ∈ atoms, endsAt slv ct a t) ∨ keyIn T.eAtms t := by
  intro atoms
  induction atoms with
  | nil => simp
  | cons a rest ih =>
    intro T t
    rw [List.foldl_cons, ih, addAtomTL_eAtms_keyIn]
    constructor
    · rintro (⟨c, hc, hs⟩ | hs | hk)
      · exact .inl ⟨c, List.mem_cons_of_mem _ hc, hs⟩
      · exact .inl ⟨a, List.mem_cons_self _ _, hs⟩
      · exact .inr hk
    · rintro (⟨c, hc, hs⟩ | hk)
      · rcases List.mem_cons.mp hc with rfl | hc
        · exact .inr (.inl hs)
        · exact .inl ⟨c, hc, hs⟩
      · exact .inr (.inr hk)

/-- Helper: the pulses built by the whole atom fold. -/
theorem buildGo_pulses_mem (slv : Solver) (ct : ℚ) :
    ∀ (atoms : List Atom) (T : Timeline) (t : ℚ),
    t ∈ (atoms.foldl (addAtomTL slv ct) T).pulses ↔
      (∃ a ∈ atoms, startsAt slv ct a t ∨ endsAt slv ct a t) ∨ t ∈ T.pulses := by
  intro atoms
  induction atoms with
  | nil => simp
  | cons a rest ih =>
    intro T t
    rw [List.foldl_cons, ih, addAtomTL_pulses_mem]
    constructor
    · rintro (⟨c, hc, hs⟩ | hs | hk)
      · exact .inl ⟨c, List.mem_cons_of_mem _ hc, hs⟩
      · exact .inl ⟨a, List.mem_cons_self _ _, hs⟩
      · exact .inr hk
    · rintro (⟨c, hc, hs⟩ | hk)
      · rcases List.mem_cons.mp hc with rfl | hc
        · exact .inr (.inl hs)
        · exact .inl ⟨c, hc, hs⟩
      · exact .inr (.inr hk)

/-- Helper: the pulse set built by the whole atom fold is sorted. -/
theorem buildGo_pulses_sorted (slv : Solver) (ct : ℚ) :
    ∀ (atoms : List Atom) (T : Timeline), T.pulses.Sorted (· < ·) →
    ((atoms.foldl (addAtomTL slv ct) T).pulses).Sorted (· < ·) := by
  intro atoms
  induction atoms with
  | nil => exact fun T h => h
  | cons a rest ih =>
    intro T h
    rw [List.foldl_cons]
    exact ih _ (addAtomTL_pulses_sorted slv ct T a h)

/-- Helper: an atom contributing a start pulse satisfies `ct ≤ t`. -/
theorem startsAt_ge (slv : Solver) (ct : ℚ) (a : Atom) (t : ℚ)
    (h : startsAt slv ct a t) : ct ≤ t := by
  obtain ⟨-, (⟨-, hat, rfl⟩ | ⟨-, -, -, hst, rfl⟩)⟩ := h
  · exact not_lt.mp hat
  · exact hst

/-- Helper: an atom contributing an end pulse satisfies `ct ≤ t`. -/
theorem endsAt_ge (slv : Solver) (ct : ℚ) (a : Atom) (t : ℚ)
    (h : endsAt slv ct a t) : ct ≤ t := by
  obtain ⟨-, (⟨-, hat, rfl⟩ | ⟨-, -, hend, rfl⟩)⟩ := h
  · exact not_lt.mp hat
  · exact not_lt.mp hend

/-- Helper: an atom lies somewhere in a pulse map iff it lies under some
pulse. -/
theorem inTL_iff (m : List (ℚ × List Atom)) (a : Atom) :
    inTL m a ↔ ∃ t, memAt m t a := by
  constructor
  · rintro ⟨p, hp, hpa⟩
    exact ⟨p.1, p, hp, rfl, hpa⟩
  · rintro ⟨t, p, hp, -, hpa⟩
    exact ⟨p, hp, hpa⟩

/-- C7: after every run of `build_timelines`, (i) every pulse is ≥
`current_time`; (ii) `pulses` is sorted; (iii) `pulses` is exactly the
union of the keys of `s_atms` and `e_atms`; (iv) an active impulse whose
`AT` lies in the past appears in neither map; (v) an active interval
whose `END` lies in the past appears in neither map; (vi) an active
interval with `START < current_time ≤ END` contributes only its end
pulse: it is absent from `s_atms` and present in `e_atms` under `END`. -/
theorem c7_build_timelines_trimmed (slv : Solver) (ct : ℚ) (atoms : List Atom) :
    (∀ t ∈ (buildTimelines slv ct atoms).pulses, ct ≤ t) ∧
    ((buildTimelines slv ct atoms).pulses).Sorted (· < ·) ∧
    (∀ t, t ∈ (buildTimelines slv ct atoms).pulses ↔
      keyIn (buildTimelines slv ct atoms).sAtms t ∨
        keyIn (buildTimelines slv ct atoms).eAtms t) ∧
    (∀ a ∈ atoms, slv.sigmaValue a.id = .ltrue → a.impulse = true →
      slv.arithValue a.atE < ct →
      ¬ inTL (buildTimelines slv ct atoms).sAtms a ∧
        ¬ inTL (buildTimelines slv ct atoms).eAtms a) ∧
    (∀ a ∈ atoms, slv.sigmaValue a.id = .ltrue → a.impulse = false →
      a.interval = true → slv.arithValue a.endE < ct →
      ¬ inTL (buildTimelines slv ct atoms).sAtms a ∧
        ¬ inTL (buildTimelines slv ct atoms).eAtms a) ∧
    (∀ a ∈ atoms, slv.sigmaValue a.id = .ltrue → a.impulse = false →
      a.interval = true → slv.arithValue a.startE < ct →
      ¬ slv.arithValue a.endE < ct →
      ¬ inTL (buildTimelines slv ct atoms).sAtms a ∧
        memAt (buildTimelines slv ct atoms).eAtms (slv.arithValue a.endE) a) := by
  refine ⟨?_, ?_, ?_, ?_, ?_, ?_⟩
  · intro t ht
    rcases (buildGo_pulses_mem slv ct atoms ⟨[], [], []⟩ t).mp ht with ⟨a, -, hs | he⟩ | hmem
    · exact startsAt_ge slv ct a t hs
    · exact endsAt_ge slv ct a t he
    · exact absurd hmem (List.not_mem_nil t)
  · exact buildGo_pulses_sorted slv ct atoms ⟨[], [], []⟩ (by simp)
  · intro t
    constructor
    · intro ht
      rcases (buildGo_pulses_mem slv ct atoms ⟨[], [], []⟩ t).mp ht with ⟨a, ha, hs | he⟩ | hmem
      · exact .inl ((buildGo_sAtms_keyIn slv ct atoms ⟨[], [], []⟩ t).mpr (.inl ⟨a, ha, hs⟩))
      · exact .inr ((buildGo_eAtms_keyIn slv ct atoms ⟨[], [], []⟩ t).mpr (.inl ⟨a, ha, he⟩))
      · exact absurd hmem (List.not_mem_nil t)
    · rintro (hk | hk)
      · rcases (buildGo_sAtms_keyIn slv ct atoms ⟨[], [], []⟩ t).mp hk with ⟨a, ha, hs⟩ | hk0
        · exact (buildGo_pulses_mem slv ct atoms ⟨[], [], []⟩ t).mpr (.inl ⟨a, ha, .inl hs⟩)
        · exact absurd hk0 (keyIn_nil t)
      · rcases (buildGo_eAtms_keyIn slv ct atoms ⟨[], [], []⟩ t).mp hk with ⟨a, ha, he⟩ | hk0
        · exact (buildGo_pulses_mem slv ct atoms ⟨[], [], []⟩ t).mpr (.inl ⟨a, ha, .inr he⟩)
        · exact absurd hk0 (keyIn_nil t)
  · intro a ha hσ himp hat
    constructor
    · rw [inTL_iff]
      rintro ⟨t, hm⟩
      rcases (buildGo_sAtms_memAt slv ct atoms ⟨[], [], []⟩ t a).mp hm with
        ⟨-, -, (⟨-, hat', rfl⟩ | ⟨himp', -, -, -, -⟩)⟩ | hm0
      · exact hat' hat
      · rw [himp] at himp'; exact absurd himp' (by simp)
      · exact absurd hm0 (memAt_nil t a)
    · rw [inTL_iff]
      rintro ⟨t, hm⟩
      rcases (buildGo_eAtms_memAt slv ct atoms ⟨[], [], []⟩ t a).mp hm with
        ⟨-, -, (⟨-, hat', rfl⟩ | ⟨himp', -, -, -⟩)⟩ | hm0
      · exact hat' hat
      · rw [himp] at himp'; exact absurd himp' (by simp)
      · exact absurd hm0 (memAt_nil t a)
  · intro a ha hσ himp hint hend
    constructor
    · rw [inTL_iff]
      rintro ⟨t, hm⟩
      rcases (buildGo_sAtms_memAt slv ct atoms ⟨[], [], []⟩ t a).mp hm with
        ⟨-, -, (⟨himp', -, -⟩ | ⟨-, -, hend', -, -⟩)⟩ | hm0
      · rw [himp] at himp'; exact absurd himp' (by simp)
      · exact hend' hend
      · exact absurd hm0 (memAt_nil t a)
    · rw [inTL_iff]
      rintro ⟨t, hm⟩
      rcases (buildGo_eAtms_memAt slv ct atoms ⟨[], [], []⟩ t a).mp hm with
        ⟨-, -, (⟨himp', -, -⟩ | ⟨-, -, hend', -⟩)⟩ | hm0
      · rw [himp] at himp'; exact absurd himp' (by simp)
      · exact hend' hend
      · exact absurd hm0 (memAt_nil t a)
  · intro a ha hσ himp hint hst hend
    constructor
    · rw [inTL_iff]
      rintro ⟨t, hm⟩
      rcases (buildGo_sAtms_memAt slv ct atoms ⟨[], [], []⟩ t a).mp hm with
        ⟨-, -, (⟨himp', -, -⟩ | ⟨-, -, -, hst', -⟩)⟩ | hm0
      · rw [himp] at himp'; exact absurd himp' (by simp)
      · exact absurd hst' (not_le.mpr hst)
      · exact absurd hm0 (memAt_nil t a)
    · exact (buildGo_eAtms_memAt slv ct atoms ⟨[], [], []⟩ (slv.arithValue a.endE) a).mpr
        (.inl ⟨ha, hσ, .inr ⟨himp, hint, hend, rfl⟩⟩)

/-- C7 witness: the characterization applied to the S1 scenario timeline
(one active impulse at pulse 3, current time 0). -/
theorem c7_build_timelines_trimmed_witness :
    (3 : ℚ) ∈ (buildTimelines slv1 0 [atomA]).pulses ∧ (0 : ℚ) ≤ 3 :=
  ⟨by decide, (c7_build_timelines_trimmed slv1 0 [atomA]).1 3 (by decide)⟩

set_option maxHeartbeats 1000000 in
/-- Helper: in the stubborn-listener run every unit of fuel is consumed
by one more delay-absorb restart: with `n` fuel the drain loop performs
`n` restart rounds (each re-registering, absorbing, re-solving and
reinstating the same timeline) and runs out of fuel with the state
unchanged except for the oracle counters. -/
theorem c8_loop (n : ℕ) : ∀ c1 c2 : ℕ,
    drainLoop env8 n (s8c c1 c2) =
      .outOfFuel (s8c (c1 + n) (c2 + n)) (c8Events n) := by
  induction n with
  | zero =>
    intro c1 c2
    conv_lhs => rw [drainLoop]
    norm_num [s8c, tl8, c8Events]
  | succ n ih =>
    intro c1 c2
    have step : drainLoop env8 (n + 1) (s8c c1 c2) =
        (drainLoop env8 n (s8c (c1 + 1) (c2 + 1))).withEvs c8Block := by
      conv_lhs => rw [drainLoop]
      norm_num [s8c, env8, slv8, tl8, atom8, alookup, aerase, areplace, dontStartYet,
        dontEndYet, umapInsert, absorbStarts, absorbEnds, upsertArithLb, delayedLb,
        solveEffects, idsOf, c8Block]
      simp [c8Block]
    have h1 : c1 + 1 + n = c1 + (n + 1) := by omega
    have h2 : c2 + 1 + n = c2 + (n + 1) := by omega
    rw [step, ih (c1 + 1) (c2 + 1), h1, h2]
    rfl

/-- Helper: `n` restart rounds contain exactly `n` re-solves. -/
theorem c8_countSolves : ∀ n : ℕ, countSolves (c8Events n) = n := by
  intro n
  induction n with
  | zero => rfl
  | succ n ih =>
    show countSolves (c8Block ++ c8Events n) = n + 1
    unfold countSolves at ih ⊢
    rw [List.countP_append, ih]
    have hb : List.countP (fun x => decide (x = Event.solveCall)) c8Block = 1 := rfl
    omega

/-- C8 counterexample: with a listener that re-registers a delay at every
`starting` notification and a solver whose re-solve keeps reproducing the
same schedule (no failure, no strict advance), the tick's delay-absorb
restart repeats once per loop iteration forever: however much fuel the
loop is given, it exhausts it, and the number of re-solves in a single
tick exceeds every bound.  The claimed justification fails — a successful
re-solve need not strictly advance the solver's state. -/
theorem c8_counterexample :
    ¬ ∃ N : ℕ, ∀ fuel : ℕ, countSolves ((tick env8 fuel (s8c 0 0)).events) ≤ N := by
  rintro ⟨N, hN⟩
  have ht : tick env8 (N + 1) (s8c 0 0) =
      .outOfFuel (s8c (N + 1) (N + 1)) (c8Events (N + 1)) := by
    have hd := c8_loop (N + 1) 0 0
    simp only [Nat.zero_add] at hd
    have hp : (s8c 0 0).pending = false := rfl
    have hr : (s8c 0 0).running = true := rfl
    simp only [tick, tickAfterPending, hp, hr, Bool.false_eq_true, if_false, if_true, hd,
      List.nil_append]
  have h := hN (N + 1)
  rw [ht] at h
  rw [show (TickRes.outOfFuel (s8c (N + 1) (N + 1)) (c8Events (N + 1))).events =
    c8Events (N + 1) from rfl, c8_countSolves (N + 1)] at h
  omega

/-- Helper: with an empty `dont_start` map the start-absorb pass does
nothing. -/
theorem absorbStarts_empty (env : Env) :
    ∀ (atms : List Atom) (s : ExecSt) (b : Bool), s.dontStart = [] →
    absorbStarts env atms s b = .ok (s, b) := by
  intro atms
  induction atms with
  | nil => intro s b _; rfl
  | cons a rest ih =>
    intro s b h
    unfold absorbStarts
    rw [h]
    exact ih s b h

/-- Helper: with an empty `dont_end` map the end-absorb pass does
nothing. -/
theorem absorbEnds_empty (env : Env) :
    ∀ (atms : List Atom) (s : ExecSt) (b : Bool), s.dontEnd = [] →
    absorbEnds env atms s b = .ok (s, b) := by
  intro atms
  induction atms with
  | nil => intro s b _; rfl
  | cons a rest ih =>
    intro s b h
    unfold absorbEnds
    rw [h]
    exact ih s b h

/-- Helper: freezing one expression never touches the delay maps. -/
theorem freezeVar_dont (env : Env) (atmId : ℕ) (v : NamedVar) (s s' : ExecSt)
    (h : freezeVar env atmId v s = .ok s') :
    s'.dontStart = s.dontStart ∧ s'.dontEnd = s.dontEnd := by
  unfold freezeVar at h
  split at h
  · cases h; exact ⟨rfl, rfl⟩
  · split at h
    · split at h
      · exact absurd h (by simp)
      · cases h; exact ⟨rfl, rfl⟩
    · split at h
      · cases h; exact ⟨rfl, rfl⟩
      · split at h
        · split at h
          · exact absurd h (by simp)
          · split at h
            · cases h; exact ⟨rfl, rfl⟩
            · exact absurd h (by simp)
        · cases h; exact ⟨rfl, rfl⟩
    · split at h
      · exact absurd h (by simp)
      · split at h
        · exact absurd h (by simp)
        · cases h; exact ⟨rfl, rfl⟩

/-- Helper: freezing an atom's expressions never touches the delay
maps. -/
theorem freezeAtomVars_dont (env : Env) (a : Atom) :
    ∀ (vs : List NamedVar) (s s' : ExecSt), freezeAtomVars env a vs s = .ok s' →
    s'.dontStart = s.dontStart ∧ s'.dontEnd = s.dontEnd := by
  intro vs
  induction vs with
  | nil =>
    intro s s' h
    cases h
    exact ⟨rfl, rfl⟩
  | cons v rest ih =>
    intro s s' h
    unfold freezeAtomVars at h
    split at h
    · exact absurd h (by simp)
    · rename_i s1 h1
      obtain ⟨ha, hb⟩ := ih s1 s' h
      obtain ⟨hc, hd⟩ := freezeVar_dont env a.id v s s1 h1
      exact ⟨ha.trans hc, hb.trans hd⟩

/-- Helper: the start-freeze pass never touches the delay maps. -/
theorem freezeStarts_dont (env : Env) :
    ∀ (atms : List Atom) (s s' : ExecSt), freezeStarts env atms s = .ok s' →
    s'.dontStart = s.dontStart ∧ s'.dontEnd = s.dontEnd := by
  intro atms
  induction atms with
  | nil =>
    intro s s' h
    cases h
    exact ⟨rfl, rfl⟩
  | cons a rest ih =>
    intro s s' h
    unfold freezeStarts at h
    split at h
    · exact absurd h (by simp)
    · rename_i s1 h1
      obtain ⟨ha, hb⟩ := ih s1 s' h
      obtain ⟨hc, hd⟩ := freezeAtomVars_dont env a a.vars s s1 h1
      exact ⟨ha.trans hc, hb.trans hd⟩

/-- Helper: freezing one ending atom never touches the delay maps. -/
theorem freezeEndAtom_dont (env : Env) (a : Atom) (s s' : ExecSt)
    (h : freezeEndAtom env a s = .ok s') :
    s'.dontStart = s.dontStart ∧ s'.dontEnd = s.dontEnd := by
  simp only [freezeEndAtom] at h
  by_cases h0 : (a.impulse || a.interval) = true
  · rw [if_pos h0] at h
    by_cases hc : env.solver.isConstant (if a.impulse then a.atE else a.endE) = true
    · rw [if_pos hc] at h
      cases h
      exact ⟨rfl, rfl⟩
    · rw [if_neg hc] at h
      rcases had : alookup s.adaptations a.id with _ | ad
      · simp only [had] at h
        exact absurd h (by simp)
      · simp only [had] at h
        rcases hup : upsertArithBoth ad.bounds (if a.impulse then a.atE else a.endE)
            (env.solver.arithValue (if a.impulse then a.atE else a.endE)) with _ | nb
        · simp only [hup] at h
          exact absurd h (by simp)
        · simp only [hup] at h
          by_cases hr : env.solver.isReal (if a.impulse then a.atE else a.endE) = true
          · rw [if_pos hr] at h
            by_cases hl : (env.lraSet || env.backjumpOk) = true
            · rw [if_pos hl] at h
              cases h
              exact ⟨rfl, rfl⟩
            · rw [if_neg hl] at h
              exact absurd h (by simp)
          · rw [if_neg hr] at h
            exact absurd h (by simp)
  · rw [if_neg h0] at h
    cases h
    exact ⟨rfl, rfl⟩

/-- Helper: the end-freeze pass never touches the delay maps. -/
theorem freezeEnds_dont (env : Env) :
    ∀ (atms : List Atom) (s s' : ExecSt), freezeEnds env atms s = .ok s' →
    s'.dontStart = s.dontStart ∧ s'.dontEnd = s.dontEnd := by
  intro atms
  induction atms with
  | nil =>
    intro s s' h
    cases h
    exact ⟨rfl, rfl⟩
  | cons a rest ih =>
    intro s s' h
    unfold freezeEnds at h
    split at h
    · exact absurd h (by simp)
    · rename_i s1 h1
      obtain ⟨ha, hb⟩ := ih s1 s' h
      obtain ⟨hc, hd⟩ := freezeEndAtom_dont env a s s1 h1
      exact ⟨ha.trans hc, hb.trans hd⟩

/-- Helper: prepending restart-free events preserves the no-restart,
no-fuel-exhaustion property of a loop result. -/
theorem loopRes_withEvs_ok (pre : List Event) (r : LoopRes)
    (hpre : countSolves pre = 0)
    (h1 : ∀ s' evs, r ≠ .outOfFuel s' evs) (h2 : countSolves r.events = 0) :
    (∀ s' evs, r.withEvs pre ≠ .outOfFuel s' evs) ∧
      countSolves (r.withEvs pre).events = 0 := by
  unfold countSolves at hpre h2 ⊢
  rcases r with ⟨sD, evsD⟩ | ⟨k, sD, evsD⟩ | ⟨sD, evsD⟩
  · refine ⟨fun s' evs h => (by cases h), ?_⟩
    simp only [LoopRes.withEvs, LoopRes.events, List.countP_append] at h2 ⊢
    omega
  · refine ⟨fun s' evs h => (by cases h), ?_⟩
    simp only [LoopRes.withEvs, LoopRes.events, List.countP_append] at h2 ⊢
    omega
  · exact absurd rfl (h1 sD evsD)

set_option maxHeartbeats 1000000 in
/-- C8 (amended): the delay-absorb restart is bounded only by the
environment, not by the loop itself: when listeners register no delays
during the tick (empty DontStart/DontEnd and empty responses to every
notification), the pulse-drain loop performs no re-solve at all and
drains one pulse per iteration, so it never exhausts a fuel budget larger
than the number of pending pulses — every exit is a normal completion or
a raised failure. -/
theorem c8_amended_no_delay_termination :
    ∀ (fuel : ℕ) (env : Env) (s : ExecSt),
      (∀ n ids, env.onStarting n ids = []) →
      (∀ n ids, env.onEnding n ids = []) →
      s.dontStart = [] → s.dontEnd = [] →
      s.timeline.pulses.length < fuel →
      (∀ s' evs, drainLoop env fuel s ≠ .outOfFuel s' evs) ∧
      countSolves (drainLoop env fuel s).events = 0 := by
  intro fuel
  induction fuel with
  | zero =>
    intro env s hS hE hds hde hlen
    exact absurd hlen (by omega)
  | succ fuel ih =>
    intro env s hS hE hds hde hlen
    suffices hstep : ∀ r, drainLoop env (fuel+1) s = r →
        (∀ s' evs, r ≠ .outOfFuel s' evs) ∧ countSolves r.events = 0 by
      exact hstep _ rfl
    intro r hgen
    rw [drainLoop] at hgen
    simp only [hS, hE, dontStartYet, dontEndYet, List.foldl_nil] at hgen
    split at hgen
    · subst hgen
      exact ⟨fun s' evs h => (by cases h), rfl⟩
    · rename_i t restPulses hp
      rw [hp] at hlen
      simp only [List.length_cons] at hlen
      split at hgen
      case isFalse =>
        subst hgen
        exact ⟨fun s' evs h => (by cases h), rfl⟩
      case isTrue ht =>
        rcases hsa : alookup s.timeline.sAtms t with _ | satms <;>
          rcases heaq : alookup s.timeline.eAtms t with _ | eatms <;>
          simp only [hsa, heaq, Option.getD, absorbStarts_empty, absorbEnds_empty,
            hds, hde, Bool.false_eq_true, if_false] at hgen
        all_goals (
          split at hgen
          · subst hgen
            exact ⟨fun s' evs h => (by cases h), by simp [countSolves, LoopRes.events]⟩
          · rename_i s5 hfs
            split at hgen
            · subst hgen
              exact ⟨fun s' evs h => (by cases h), by simp [countSolves, LoopRes.events]⟩
            · rename_i s6 hfe
              subst hgen
              obtain ⟨hfs1, hfs2⟩ := freezeStarts_dont env _ _ _ hfs
              obtain ⟨hfe1, hfe2⟩ := freezeEnds_dont env _ _ _ hfe
              refine loopRes_withEvs_ok _ _ (by simp [countSolves]) ?_ ?_
              · exact (ih env _ hS hE (by simp [hfe1, hfs1, hds])
                  (by simp [hfe2, hfs2, hde]) (by simp; omega)).1
              · exact (ih env _ hS hE (by simp [hfe1, hfs1, hds])
                  (by simp [hfe2, hfs2, hde]) (by simp; omega)).2)


/-- C8 witness: the no-delay termination bound applied to the S1 scenario
state (one pending pulse, fuel 2). -/
theorem c8_amended_no_delay_termination_witness :
    countSolves (drainLoop env1 2 s1).events = 0 :=
  (c8_amended_no_delay_termination 2 env1 s1 (fun _ _ => rfl) (fun _ _ => rfl)
    rfl rfl (by decide)).2

end RatReduction

end PlExA
